import Mathlib

/-!
# workspace-runner: dispatching Terraform Cloud runs over matching workspaces

A shallow embedding of `main.go`.  The remote Terraform Cloud service reached
through `tfe.Client` is a state machine given as a parameter; every remote call
and every log line the program produces is recorded, in order, in a trace.
`log.Fatal` (log the error, then leave the process) ends an execution with the
outcome `fatal`.

The loop counter of `runWorkspaceCmd` is a Go `int`, taken to be 64 bits wide:
`i++` wraps around.  The page loop therefore takes a bound on the number of
iterations the model performs; an execution that has not finished within the
bound has the outcome `outOfFuel` and the trace produced so far.

The two libraries the program is built on are represented by what the program
relies on:

* `caarlos0/env`: a field tagged `env:"K" envDefault:"d"` receives the value of
  the environment variable `K`, or `d` when `K` is not set.
* `spf13/cobra`: the command line is taken as already split into the word that
  names the subcommand and the flag occurrences that follow it.  `Execute`
  finds the subcommand by name, stores the flag values, prints the help text
  instead of running when `--help` is set, checks the flags marked required
  and only then calls `Run`.  An `Invocation` stands for
  a command line made of the commands and flags this program defines and of
  the `--help` flag and `help` command the library adds; the completion
  commands of newer versions of the library are outside the model, and the
  wording of the library's error messages is abridged, that of the missing
  required flag apart.
-/

namespace WorkspaceRunner

/-! ## Go integers -/

/-- Largest value of the Go type `int` on a 64-bit platform. -/
def maxInt : Int := 9223372036854775807

/-- Smallest value of the Go type `int` on a 64-bit platform. -/
def minInt : Int := -9223372036854775808

/-- Two's complement wrap-around of a 64-bit signed integer, as `i++` does. -/
def wrapInt (x : Int) : Int :=
  (x + 9223372036854775808) % 18446744073709551616 - 9223372036854775808

/-! ## The parts of `go-tfe` the program touches -/

/-- Message of a Go `error` value. -/
abbrev Error := String

/-- Type `tfe.Workspace`, with the two fields the program reads or writes. -/
structure Workspace where
  ID : String
  Name : String
deriving DecidableEq, Repr

/-- Type `tfe.ListOptions`: the page that is asked for. -/
structure ListOptions where
  PageNumber : Int
deriving DecidableEq, Repr

/-- Type `tfe.WorkspaceListOptions`, with the fields the program sets. -/
structure WorkspaceListOptions where
  ListOptions : ListOptions
  WildcardName : String
deriving DecidableEq, Repr

/-- Type `tfe.WorkspaceList`: the pagination data and the items of one page. -/
structure WorkspaceList where
  TotalPages : Int
  Items : List Workspace
deriving DecidableEq, Repr

/-- Type `tfe.RunCreateOptions`, with the field the program sets. -/
structure RunCreateOptions where
  Workspace : Workspace
deriving DecidableEq, Repr

/-- Result of a remote call: the Go pair `(value, err)`. -/
inductive Result (α : Type) where
  | ok (value : α)
  | err (e : Error)
deriving DecidableEq, Repr

/-- The remote service behind `tfe.Client`, as a state machine over `σ`:
`WorkspacesList` is `Workspaces.List(ctx, organization, options)` (options may
be `nil`) and `RunsCreate` is `Runs.Create(ctx, options)`, whose run value the
program discards. -/
structure Client (σ : Type) where
  WorkspacesList : σ → String → Option WorkspaceListOptions → Result WorkspaceList × σ
  RunsCreate : σ → RunCreateOptions → Result Unit × σ

/-- Type `config`: filled from the environment. -/
structure config where
  TFE_TOKEN : String
  TFE_ORG : String
deriving DecidableEq, Repr

/-! ## Traces -/

/-- One observable action of the program. -/
inductive Event where
  | list (organization : String) (options : Option WorkspaceListOptions)
      (response : Result WorkspaceList)
  | create (options : RunCreateOptions) (response : Result Unit)
  | log (line : String)
deriving DecidableEq, Repr

/-- How an execution ended: the function returned, the process was ended by
`log.Fatal`, a nil pointer was dereferenced, or the model ran out of loop
iterations before the code finished. -/
inductive Outcome where
  | returned
  | fatal (err : Error)
  | panic
  | outOfFuel
deriving DecidableEq, Repr

/-- An execution: how it ended, the state of the remote service afterwards and
the actions performed, oldest first. -/
structure Exec (σ : Type) where
  outcome : Outcome
  state : σ
  trace : List Event

/-! ## `runWorkspaceCmd` -/

/-- The inner loop `for _, workspace := range workspaces.Items`: log the name,
create a run for the ID, stop at the first failing creation. -/
def itemLoop {σ : Type} (client : Client σ) : List Workspace → σ → Exec σ
  | [], s => ⟨Outcome.returned, s, []⟩
  | workspace :: rest, s =>
    let options : RunCreateOptions := ⟨⟨workspace.ID, ""⟩⟩
    match client.RunsCreate s options with
    | (Result.err e, s1) =>
      ⟨Outcome.fatal e, s1,
        [Event.log ("Workspace: " ++ workspace.Name),
         Event.create options (Result.err e), Event.log e]⟩
    | (Result.ok r, s1) =>
      let x := itemLoop client rest s1
      ⟨x.outcome, x.state,
        Event.log ("Workspace: " ++ workspace.Name)
          :: Event.create options (Result.ok r) :: x.trace⟩

/-- The outer loop `for i := 1; i <= workspaces.TotalPages; i++`, entered with
counter `i`; `totalPages` is the bound read from the first response and `fuel`
bounds the number of iterations the model performs. -/
def pageLoop {σ : Type} (client : Client σ) (organization wildcard : String)
    (totalPages : Int) : Nat → Int → σ → Exec σ
  | fuel, i, s =>
    if i ≤ totalPages then
      match fuel with
      | 0 => ⟨Outcome.outOfFuel, s, []⟩
      | fuel + 1 =>
        let options : WorkspaceListOptions := ⟨⟨i⟩, wildcard⟩
        match client.WorkspacesList s organization (some options) with
        | (Result.err e, s1) =>
          ⟨Outcome.fatal e, s1,
            [Event.list organization (some options) (Result.err e), Event.log e]⟩
        | (Result.ok workspaces, s1) =>
          let items := itemLoop client workspaces.Items s1
          match items.outcome with
          | Outcome.returned =>
            let x := pageLoop client organization wildcard totalPages fuel
              (wrapInt (i + 1)) items.state
            ⟨x.outcome, x.state,
              Event.list organization (some options) (Result.ok workspaces)
                :: (items.trace ++ x.trace)⟩
          | o =>
            ⟨o, items.state,
              Event.list organization (some options) (Result.ok workspaces)
                :: items.trace⟩
    else ⟨Outcome.returned, s, []⟩

/-- Function `(c *cliBuilder) runWorkspaceCmd(wildcard)`, over the two fields of
the builder it reads. -/
def runWorkspaceCmd {σ : Type} (tfeClient : Client σ) (tfeConfig : config)
    (wildcard : String) (fuel : Nat) (s : σ) : Exec σ :=
  match tfeClient.WorkspacesList s tfeConfig.TFE_ORG none with
  | (Result.err e, s1) =>
    ⟨Outcome.fatal e, s1,
      [Event.list tfeConfig.TFE_ORG none (Result.err e), Event.log e]⟩
  | (Result.ok workspaces, s1) =>
    let x := pageLoop tfeClient tfeConfig.TFE_ORG wildcard workspaces.TotalPages fuel 1 s1
    ⟨x.outcome, x.state,
      Event.list tfeConfig.TFE_ORG none (Result.ok workspaces) :: x.trace⟩

/-! ## The command line: the parts of `cobra` and `pflag` the program uses -/

/-- Kind of value a flag holds. -/
inductive FlagKind where
  | bool
  | string
deriving DecidableEq, Repr

/-- A flag defined on a command: `BoolP` and `StringVarP` give the first five
fields, `MarkFlagRequired` sets the last. -/
structure Flag where
  Kind : FlagKind
  Name : String
  Shorthand : String
  DefValue : String
  Usage : String
  Required : Bool
deriving DecidableEq, Repr

/-- Type `cobra.Command`: its name, its description, its `Run` function (which
receives the current values of the variables bound to flags, by flag name), its
flags and its subcommands. -/
inductive Command (σ : Type) where
  | mk (Use : String) (Short : String)
      (Run : Option ((String → String) → Nat → σ → Exec σ))
      (flags : List Flag) (commands : List (Command σ))

namespace Command

variable {σ : Type}

/-- Field `Use`. -/
def Use : Command σ → String
  | mk u _ _ _ _ => u

/-- Field `Short`. -/
def Short : Command σ → String
  | mk _ sh _ _ _ => sh

/-- Field `Run`. -/
def Run : Command σ → Option ((String → String) → Nat → σ → Exec σ)
  | mk _ _ r _ _ => r

/-- The flag set `Flags()` of the command. -/
def flags : Command σ → List Flag
  | mk _ _ _ f _ => f

/-- The subcommands of the command. -/
def commands : Command σ → List (Command σ)
  | mk _ _ _ _ c => c

/-- Method `AddCommand`. -/
def AddCommand : Command σ → Command σ → Command σ
  | mk u sh r f c, child => mk u sh r f (c ++ [child])

/-- Adds one flag definition, as `Flags().BoolP` and `Flags().StringVarP` do. -/
def addFlag : Command σ → Flag → Command σ
  | mk u sh r f c, fl => mk u sh r (f ++ [fl]) c

/-- Method `MarkFlagRequired(name)`: annotates the flag of that name. -/
def MarkFlagRequired : Command σ → String → Command σ
  | mk u sh r f c, name =>
    mk u sh r (f.map fun fl => if fl.Name = name then { fl with Required := true } else fl) c

end Command

/-- Method `Name`: the first word of `Use`. -/
def Command.Name {σ : Type} (c : Command σ) : String :=
  String.mk (c.Use.data.takeWhile fun ch => ch ≠ ' ')

/-- One flag occurrence on the command line, as pflag reads it.  `long` and
`short` carry a value: the text after `=` (`--name=value`, `-n=value`,
`-nvalue`) or, for a flag that takes a value, the word that follows
(`--name value`, `-n value`).  `longBare` and `shortBare` are occurrences
without a value (`--name`, `-n`): a boolean flag is then set to `true` and a
word that follows it stays positional; any other flag fails for want of its
argument. -/
inductive FlagArg where
  | long (name value : String)
  | short (shorthand value : String)
  | longBare (name : String)
  | shortBare (shorthand : String)
deriving DecidableEq, Repr

/-- The command line as cobra reads it: the first positional word (one that is
neither a flag nor the value of a flag), if any, which names the subcommand,
and the flag occurrences.  Further positional words are accepted and ignored by
every `Run` of this program. -/
structure Invocation where
  command : Option String
  flagArgs : List FlagArg
deriving DecidableEq, Repr

/-- The definition a flag occurrence refers to. -/
def lookupFlag (defs : List Flag) : FlagArg → Option Flag
  | FlagArg.long name _ => defs.find? fun fl => fl.Name = name
  | FlagArg.short sh _ => defs.find? fun fl => fl.Shorthand = sh
  | FlagArg.longBare name => defs.find? fun fl => fl.Name = name
  | FlagArg.shortBare sh => defs.find? fun fl => fl.Shorthand = sh

/-- The spellings `strconv.ParseBool` reads as true. -/
def trueSpellings : List String :=
  ["1", "t", "T", "TRUE", "true", "True"]

/-- The spellings `strconv.ParseBool` accepts. -/
def boolSpellings : List String :=
  trueSpellings ++ ["0", "f", "F", "FALSE", "false", "False"]

/-- The value an occurrence gives to the flag it names: a boolean flag takes
only a spelling of a boolean and is `true` when written without a value; any
other flag needs a value. -/
def assignedValue (fl : Flag) : FlagArg → Except Error String
  | FlagArg.long _ v =>
    if fl.Kind = FlagKind.bool ∧ v ∉ boolSpellings then Except.error "invalid argument"
    else Except.ok v
  | FlagArg.short _ v =>
    if fl.Kind = FlagKind.bool ∧ v ∉ boolSpellings then Except.error "invalid argument"
    else Except.ok v
  | FlagArg.longBare _ =>
    if fl.Kind = FlagKind.bool then Except.ok "true"
    else Except.error "flag needs an argument"
  | FlagArg.shortBare _ =>
    if fl.Kind = FlagKind.bool then Except.ok "true"
    else Except.error "flag needs an argument"

/-- Flag parsing: every occurrence must name a defined flag and give it a value
of its kind; the result lists the flags that were set, with their values, in
command-line order. -/
def parseFlags (defs : List Flag) : List FlagArg → Except Error (List (String × String))
  | [] => Except.ok []
  | a :: rest =>
    match lookupFlag defs a with
    | none => Except.error "unknown flag"
    | some fl =>
      match assignedValue fl a with
      | Except.error e => Except.error e
      | Except.ok v =>
        match parseFlags defs rest with
        | Except.error e => Except.error e
        | Except.ok changed => Except.ok ((fl.Name, v) :: changed)

/-- The content, after parsing, of the variable bound to the flag `name`: the
last value set on the command line, or else the default of the flag. -/
def flagValue (defs : List Flag) (changed : List (String × String)) (name : String) : String :=
  match changed.reverse.find? fun p => p.1 = name with
  | some p => p.2
  | none =>
    match defs.find? fun fl => fl.Name = name with
    | some fl => fl.DefValue
    | none => ""

/-- Method `ValidateRequiredFlags`: the names of the required flags that were
not set; an error naming them, each in double quotes, when there is one. -/
def validateRequiredFlags (defs : List Flag) (changed : List (String × String)) :
    Except Error Unit :=
  match (defs.filter fun fl => fl.Required ∧ fl.Name ∉ changed.map Prod.fst).map Flag.Name with
  | [] => Except.ok ()
  | missing =>
    Except.error ("required flag(s) \"" ++ "\", \"".intercalate missing ++ "\" not set")

/-- The flag `--help` (`-h`) that cobra defines on every command. -/
def helpFlag : Flag :=
  ⟨FlagKind.bool, "help", "h", "false", "help for the command", false⟩

/-- The `help` command that cobra adds to a root command with subcommands: its
`Run` prints a help text and makes no call. -/
def helpCmd {σ : Type} : Command σ :=
  Command.mk "help [command]" "Help about any command"
    (some fun _ _ s => ⟨Outcome.returned, s, []⟩) [] []

/-- The command an invocation selects: the root itself, or the subcommand of
that name, the built-in `help` command being one when the root has
subcommands. -/
def Command.Find {σ : Type} (root : Command σ) : Option String → Except Error (Command σ)
  | none => Except.ok root
  | some word =>
    let candidates := if root.commands.isEmpty then [] else root.commands ++ [helpCmd]
    match candidates.find? fun c => c.Name = word with
    | some c => Except.ok c
    | none => Except.error ("unknown command " ++ word)

/-- What `Execute` hands back: the error it returns, if any, and the execution
of the `Run` function (an empty one when `Run` was not reached). -/
structure Executed (σ : Type) where
  err : Option Error
  exec : Exec σ

/-- Method `Execute` of the root command: find the command, parse its flags
(its own and `--help`), print the help text and return `nil` when help is
asked for or the command has no `Run`, check the required flags, then call
`Run`. -/
def Command.Execute {σ : Type} (root : Command σ) (inv : Invocation) (fuel : Nat) (s : σ) :
    Executed σ :=
  match root.Find inv.command with
  | Except.error e => ⟨some e, ⟨Outcome.returned, s, []⟩⟩
  | Except.ok cmd =>
    let defs := cmd.flags ++ [helpFlag]
    match parseFlags defs inv.flagArgs with
    | Except.error e => ⟨some e, ⟨Outcome.returned, s, []⟩⟩
    | Except.ok changed =>
      if flagValue defs changed "help" ∈ trueSpellings then
        ⟨none, ⟨Outcome.returned, s, []⟩⟩
      else
        match cmd.Run with
        | none => ⟨none, ⟨Outcome.returned, s, []⟩⟩
        | some run =>
          match validateRequiredFlags defs changed with
          | Except.error e => ⟨some e, ⟨Outcome.returned, s, []⟩⟩
          | Except.ok _ => ⟨none, run (flagValue defs changed) fuel s⟩

/-! ## The builder -/

/-- Type `cliBuilder`; a pointer field that is `nil` is `none`. -/
structure cliBuilder (σ : Type) where
  rootCmd : Option (Command σ)
  tfeClient : Client σ
  tfeConfig : config
  workspaceRunCmdBaseline : Option (Command σ)
  workspaceRunCmdInception : Option (Command σ)
  workspaceRunCmdCustom : Option (Command σ)

/-- Function `newCliBuilder`. -/
def newCliBuilder {σ : Type} (tfeClient : Client σ) (tfeConfig : config) : cliBuilder σ :=
  { rootCmd := none, tfeClient := tfeClient, tfeConfig := tfeConfig,
    workspaceRunCmdBaseline := none, workspaceRunCmdInception := none,
    workspaceRunCmdCustom := none }

namespace cliBuilder

variable {σ : Type}

/-- Method `addRootCmd`. -/
def addRootCmd (c : cliBuilder σ) : cliBuilder σ :=
  let root : Command σ :=
    Command.mk "cmd" "CLI execute runs on specific sets of terraform cloud workspaces"
      none [] []
  { c with rootCmd := some (root.addFlag
      ⟨FlagKind.bool, "toggle", "t", "false", "Help message for toggle", false⟩) }

/-- Method `addWorkspaceRunCmdBaseline`; `none` is the nil dereference of
`c.rootCmd`. -/
def addWorkspaceRunCmdBaseline (c : cliBuilder σ) : Option (cliBuilder σ) :=
  let cmd : Command σ :=
    Command.mk "baseline" "Execute a run on all baseline workspaces"
      (some fun _ => runWorkspaceCmd c.tfeClient c.tfeConfig "baseline-*") [] []
  match c.rootCmd with
  | none => none
  | some root =>
    some { c with workspaceRunCmdBaseline := some cmd, rootCmd := some (root.AddCommand cmd) }

/-- Method `addWorkspaceRunCmdCustom`; the local variable `filter` is the
variable bound to the flag of that name. -/
def addWorkspaceRunCmdCustom (c : cliBuilder σ) : Option (cliBuilder σ) :=
  let cmd0 : Command σ :=
    Command.mk "custom" "Execute a run on all custom workspaces"
      (some fun flagVar => runWorkspaceCmd c.tfeClient c.tfeConfig (flagVar "filter" ++ "*"))
      [] []
  let cmd1 := cmd0.addFlag
    ⟨FlagKind.string, "filter", "b", "", "Use this filter to select workspaces", false⟩
  let cmd := cmd1.MarkFlagRequired "filter"
  match c.rootCmd with
  | none => none
  | some root =>
    some { c with workspaceRunCmdCustom := some cmd, rootCmd := some (root.AddCommand cmd) }

/-- Method `addWorkspaceRunCmdInception`. -/
def addWorkspaceRunCmdInception (c : cliBuilder σ) : Option (cliBuilder σ) :=
  let cmd : Command σ :=
    Command.mk "inception" "Execute a run on all inception workspaces"
      (some fun _ => runWorkspaceCmd c.tfeClient c.tfeConfig "wl-inception-*") [] []
  match c.rootCmd with
  | none => none
  | some root =>
    some { c with workspaceRunCmdInception := some cmd, rootCmd := some (root.AddCommand cmd) }

/-- Method `execute`: `c.rootCmd.Execute()`. -/
def execute (c : cliBuilder σ) (inv : Invocation) (fuel : Nat) (s : σ) : Executed σ :=
  match c.rootCmd with
  | none => ⟨none, ⟨Outcome.panic, s, []⟩⟩
  | some root => root.Execute inv fuel s

end cliBuilder

/-! ## `main` -/

/-- Type `tfe.Config`, with the fields the program sets. -/
structure TfeConfig where
  Token : String
  RetryServerErrors : Bool
deriving DecidableEq, Repr

/-- Call `env.Parse(&cfg)` on the type `config`: each field takes the value of
its environment variable, `TFE_ORG` falling back to its `envDefault`. -/
def envParse (environ : String → Option String) : Result config :=
  Result.ok
    { TFE_TOKEN := (environ "TFE_TOKEN").getD "",
      TFE_ORG := (environ "TFE_ORG").getD "cbh" }

/-- The builder chain of `main`, from `newCliBuilder` to the last `add`. -/
def buildCli {σ : Type} (client : Client σ) (cfg : config) : Option (cliBuilder σ) :=
  ((((newCliBuilder client cfg).addRootCmd).addWorkspaceRunCmdBaseline).bind
    cliBuilder.addWorkspaceRunCmdInception).bind cliBuilder.addWorkspaceRunCmdCustom

/-- Function `main`: `environ` is the process environment, `NewClient` stands
for `tfe.NewClient` and `inv` for the command line. -/
def main {σ : Type} (environ : String → Option String)
    (NewClient : TfeConfig → Result (Client σ)) (inv : Invocation) (fuel : Nat) (s : σ) :
    Exec σ :=
  match envParse environ with
  | Result.err e => ⟨Outcome.fatal e, s, [Event.log e]⟩
  | Result.ok cfg =>
    match NewClient ⟨cfg.TFE_TOKEN, true⟩ with
    | Result.err e => ⟨Outcome.fatal e, s, [Event.log e]⟩
    | Result.ok client =>
      match buildCli client cfg with
      | none => ⟨Outcome.panic, s, []⟩
      | some c => (c.execute inv fuel s).exec

/-! ## Reading a trace -/

/-- The request of a workspace-listing call: organization and options. -/
def Event.listRequest : Event → Option (String × Option WorkspaceListOptions)
  | Event.list org options _ => some (org, options)
  | _ => none

/-- The workspace ID a run-creation call refers to. -/
def Event.createRequest : Event → Option String
  | Event.create options _ => some options.Workspace.ID
  | _ => none

/-- The workspaces a per-page listing call (one that carries options) returned. -/
def Event.listed : Event → List Workspace
  | Event.list _ (some _) (Result.ok page) => page.Items
  | _ => []

/-- The line a log action wrote. -/
def Event.logLine : Event → Option String
  | Event.log line => some line
  | _ => none

/-- The error of a remote call that failed. -/
def Event.failure : Event → Option Error
  | Event.list _ _ (Result.err e) => some e
  | Event.create _ (Result.err e) => some e
  | _ => none

/-- Whether the action is a remote call (a listing or a run creation). -/
def Event.isRemoteCall : Event → Bool
  | Event.log _ => false
  | _ => true

/-- The workspace-listing requests of a trace, in order. -/
def listRequests (t : List Event) : List (String × Option WorkspaceListOptions) :=
  t.filterMap Event.listRequest

/-- The page numbers carried by the listing requests of a trace, in order. -/
def pageNumbers (t : List Event) : List Int :=
  (listRequests t).filterMap fun r => r.2.map fun o => o.ListOptions.PageNumber

/-- The run-creation requests of a trace, in order: the workspace ID of each. -/
def createRequests (t : List Event) : List String :=
  t.filterMap Event.createRequest

/-- The workspaces returned by the per-page listing responses of a trace, in
page order and then item order. -/
def listedWorkspaces : List Event → List Workspace
  | [] => []
  | ev :: rest => ev.listed ++ listedWorkspaces rest

/-- The lines written to the log, in order. -/
def logLines (t : List Event) : List String :=
  t.filterMap Event.logLine

/-- The remote calls of a trace, in order. -/
def remoteCalls (t : List Event) : List Event :=
  t.filter Event.isRemoteCall

/-- The per-page listing request for page `i`. -/
def pageRequest (organization wildcard : String) (i : Int) :
    String × Option WorkspaceListOptions :=
  (organization, some ⟨⟨i⟩, wildcard⟩)

/-- The pages `1, 2, ..., n`. -/
def pagesUpTo (n : Int) : List Int :=
  (List.range' 1 n.toNat).map Int.ofNat

/-- A service none of whose calls fails. -/
def Client.AlwaysSucceeds {σ : Type} (client : Client σ) : Prop :=
  (∀ s org options, ∃ page, (client.WorkspacesList s org options).1 = Result.ok page) ∧
  (∀ s options, (client.RunsCreate s options).1 = Result.ok ())

/-! ## Vocabulary of the statements -/

/-- The actions of one iteration of the item loop whose run creation succeeds. -/
def itemEvents (workspace : Workspace) : List Event :=
  [Event.log ("Workspace: " ++ workspace.Name),
   Event.create ⟨⟨workspace.ID, ""⟩⟩ (Result.ok ())]

/-- The actions of the item loop over `items` when every run creation succeeds. -/
def itemsTrace : List Workspace → List Event
  | [] => []
  | workspace :: rest => itemEvents workspace ++ itemsTrace rest

/-- No remote call of the trace failed. -/
def NoFailure (t : List Event) : Prop :=
  ∀ ev ∈ t, ev.failure = none

/-- The run-creation calls of the trace are, in order, those for the workspaces
its per-page listings returned. -/
def Balanced (t : List Event) : Prop :=
  createRequests t = (listedWorkspaces t).map Workspace.ID

/-- The three ways an execution of the dispatch can look: no call failed and
the creations match the listings; a listing failed, as the last call, after
matching creations; a creation failed, as the last call, for a workspace that
was listed. -/
inductive Consistent : Outcome → List Event → Prop
  | running (o : Outcome) (t : List Event) :
      (∀ e, o ≠ Outcome.fatal e) → NoFailure t → Balanced t → Consistent o t
  | listFailed (pre : List Event) (org : String) (options : Option WorkspaceListOptions)
      (e : Error) :
      NoFailure pre → Balanced pre →
      Consistent (Outcome.fatal e)
        (pre ++ [Event.list org options (Result.err e), Event.log e])
  | createFailed (pre : List Event) (options : RunCreateOptions) (e : Error) :
      NoFailure pre →
      createRequests pre ++ [options.Workspace.ID] <+:
        (listedWorkspaces pre).map Workspace.ID →
      Consistent (Outcome.fatal e)
        (pre ++ [Event.create options (Result.err e), Event.log e])

/-- Replaying a trace against the service from the state `s`: every recorded
response must be the answer the service gives at that point; the result is the
state the service is left in. -/
def replay {σ : Type} (client : Client σ) : σ → List Event → Option σ
  | s, [] => some s
  | s, Event.list org options response :: rest =>
    if (client.WorkspacesList s org options).1 = response then
      replay client (client.WorkspacesList s org options).2 rest
    else none
  | s, Event.create options response :: rest =>
    if (client.RunsCreate s options).1 = response then
      replay client (client.RunsCreate s options).2 rest
    else none
  | s, Event.log _ :: rest => replay client s rest

/-- The pages `i, i + 1, ...`, `n` of them. -/
def pagesFrom (i : Int) : Nat → List Int
  | 0 => []
  | n + 1 => i :: pagesFrom (i + 1) n

/-! ## Concrete services -/

/-- A service with two pages of one workspace each, reporting two pages on
every response; a request without options gets the first page. -/
def scenarioClient : Client Unit where
  WorkspacesList := fun s _ options =>
    match options with
    | none => (Result.ok ⟨2, [⟨"ws-1", "baseline-a"⟩]⟩, s)
    | some o =>
      if o.ListOptions.PageNumber = 1 then (Result.ok ⟨2, [⟨"ws-1", "baseline-a"⟩]⟩, s)
      else if o.ListOptions.PageNumber = 2 then (Result.ok ⟨2, [⟨"ws-2", "baseline-b"⟩]⟩, s)
      else (Result.ok ⟨2, []⟩, s)
  RunsCreate := fun s _ => (Result.ok (), s)

/-- A service with a single, empty page. -/
def onePageClient : Client Unit where
  WorkspacesList := fun s _ _ => (Result.ok ⟨1, []⟩, s)
  RunsCreate := fun s _ => (Result.ok (), s)

/-- A service that reports the largest `int` as its number of pages, each page
being empty. -/
def endlessClient : Client Unit where
  WorkspacesList := fun s _ _ => (Result.ok ⟨maxInt, []⟩, s)
  RunsCreate := fun s _ => (Result.ok (), s)

/-- A service of three pages whose listing of page 2 fails. -/
def listFailsClient : Client Unit where
  WorkspacesList := fun s _ options =>
    match options with
    | none => (Result.ok ⟨3, []⟩, s)
    | some o =>
      if o.ListOptions.PageNumber = 1 then (Result.ok ⟨3, [⟨"ws-1", "baseline-a"⟩]⟩, s)
      else if o.ListOptions.PageNumber = 2 then (Result.err "listing failed", s)
      else (Result.ok ⟨3, [⟨"ws-3", "baseline-c"⟩]⟩, s)
  RunsCreate := fun s _ => (Result.ok (), s)

/-- A service of two pages, the first holding three workspaces, that refuses to
create a run for `ws-2`. -/
def createFailsClient : Client Unit where
  WorkspacesList := fun s _ options =>
    match options with
    | none => (Result.ok ⟨2, []⟩, s)
    | some o =>
      if o.ListOptions.PageNumber = 1 then
        (Result.ok ⟨2, [⟨"ws-1", "baseline-a"⟩, ⟨"ws-2", "baseline-b"⟩,
          ⟨"ws-3", "baseline-c"⟩]⟩, s)
      else (Result.ok ⟨2, [⟨"ws-4", "baseline-d"⟩]⟩, s)
  RunsCreate := fun s options =>
    if options.Workspace.ID = "ws-2" then (Result.err "run refused", s)
    else (Result.ok (), s)

/-! ## The command line the builder assembles -/

/-- The flag of the root command. -/
def toggleFlag : Flag :=
  ⟨FlagKind.bool, "toggle", "t", "false", "Help message for toggle", false⟩

/-- The flag of the `custom` subcommand, once marked required. -/
def filterFlag : Flag :=
  ⟨FlagKind.string, "filter", "b", "", "Use this filter to select workspaces", true⟩

/-- The `baseline` subcommand as the builder makes it. -/
def baselineCmd {σ : Type} (client : Client σ) (cfg : config) : Command σ :=
  Command.mk "baseline" "Execute a run on all baseline workspaces"
    (some fun _ => runWorkspaceCmd client cfg "baseline-*") [] []

/-- The `inception` subcommand as the builder makes it. -/
def inceptionCmd {σ : Type} (client : Client σ) (cfg : config) : Command σ :=
  Command.mk "inception" "Execute a run on all inception workspaces"
    (some fun _ => runWorkspaceCmd client cfg "wl-inception-*") [] []

/-- The `custom` subcommand as the builder makes it. -/
def customCmd {σ : Type} (client : Client σ) (cfg : config) : Command σ :=
  Command.mk "custom" "Execute a run on all custom workspaces"
    (some fun flagVar => runWorkspaceCmd client cfg (flagVar "filter" ++ "*")) [filterFlag] []

/-- The root command as the builder chain of `main` leaves it. -/
def builtRoot {σ : Type} (client : Client σ) (cfg : config) : Command σ :=
  Command.mk "cmd" "CLI execute runs on specific sets of terraform cloud workspaces" none
    [toggleFlag] [baselineCmd client cfg, inceptionCmd client cfg, customCmd client cfg]

/-! ## The shape of the loops -/

section Loops

variable {σ : Type} (client : Client σ)

theorem itemLoop_shape (items : List Workspace) (s : σ) :
    ((itemLoop client items s).outcome = Outcome.returned ∧
      (itemLoop client items s).trace = itemsTrace items) ∨
    ∃ e done workspace rest, items = done ++ workspace :: rest ∧
      (itemLoop client items s).outcome = Outcome.fatal e ∧
      (itemLoop client items s).trace = itemsTrace done ++
        [Event.log ("Workspace: " ++ workspace.Name),
         Event.create ⟨⟨workspace.ID, ""⟩⟩ (Result.err e), Event.log e] := by
  induction items generalizing s with
  | nil => left; exact ⟨rfl, rfl⟩
  | cons w rest ih =>
    rcases h : client.RunsCreate s ⟨⟨w.ID, ""⟩⟩ with ⟨r, s1⟩
    cases r with
    | err e =>
      right
      refine ⟨e, [], w, rest, rfl, ?_, ?_⟩ <;> simp [itemLoop, h, itemsTrace]
    | ok u =>
      rcases ih s1 with ⟨ho, ht⟩ | ⟨e, done, w', rest', hi, ho, ht⟩
      · left
        simp [itemLoop, h, itemsTrace, itemEvents, ho, ht]
      · right
        refine ⟨e, w :: done, w', rest', by simp [hi], ?_, ?_⟩
        · simp [itemLoop, h, ho]
        · simp [itemLoop, h, ht, itemsTrace, itemEvents]

end Loops

section PageLoop

variable {σ : Type} (client : Client σ) (organization wildcard : String) (totalPages : Int)

theorem pageLoop_exit (fuel : Nat) (i : Int) (s : σ) (h : ¬ i ≤ totalPages) :
    pageLoop client organization wildcard totalPages fuel i s = ⟨Outcome.returned, s, []⟩ := by
  cases fuel <;> simp [pageLoop, h]

theorem pageLoop_zero (i : Int) (s : σ) (h : i ≤ totalPages) :
    pageLoop client organization wildcard totalPages 0 i s = ⟨Outcome.outOfFuel, s, []⟩ := by
  simp [pageLoop, h]

theorem pageLoop_listErr (fuel : Nat) (i : Int) (s s1 : σ) (e : Error) (h : i ≤ totalPages)
    (hl : client.WorkspacesList s organization (some ⟨⟨i⟩, wildcard⟩) = (Result.err e, s1)) :
    pageLoop client organization wildcard totalPages (fuel + 1) i s =
      ⟨Outcome.fatal e, s1,
        [Event.list organization (some ⟨⟨i⟩, wildcard⟩) (Result.err e), Event.log e]⟩ := by
  simp [pageLoop, h, hl]

theorem pageLoop_itemsStop (fuel : Nat) (i : Int) (s s1 : σ) (page : WorkspaceList)
    (h : i ≤ totalPages)
    (hl : client.WorkspacesList s organization (some ⟨⟨i⟩, wildcard⟩) = (Result.ok page, s1))
    (hi : (itemLoop client page.Items s1).outcome ≠ Outcome.returned) :
    pageLoop client organization wildcard totalPages (fuel + 1) i s =
      ⟨(itemLoop client page.Items s1).outcome, (itemLoop client page.Items s1).state,
        Event.list organization (some ⟨⟨i⟩, wildcard⟩) (Result.ok page)
          :: (itemLoop client page.Items s1).trace⟩ := by
  simp only [pageLoop, h, hl, if_true]

theorem pageLoop_next (fuel : Nat) (i : Int) (s s1 : σ) (page : WorkspaceList)
    (h : i ≤ totalPages)
    (hl : client.WorkspacesList s organization (some ⟨⟨i⟩, wildcard⟩) = (Result.ok page, s1))
    (hi : (itemLoop client page.Items s1).outcome = Outcome.returned) :
    pageLoop client organization wildcard totalPages (fuel + 1) i s =
      ⟨(pageLoop client organization wildcard totalPages fuel (wrapInt (i + 1))
          (itemLoop client page.Items s1).state).outcome,
       (pageLoop client organization wildcard totalPages fuel (wrapInt (i + 1))
          (itemLoop client page.Items s1).state).state,
       Event.list organization (some ⟨⟨i⟩, wildcard⟩) (Result.ok page)
          :: ((itemLoop client page.Items s1).trace ++
            (pageLoop client organization wildcard totalPages fuel (wrapInt (i + 1))
              (itemLoop client page.Items s1).state).trace)⟩ := by
  simp only [pageLoop, h, hl, if_true, hi]

/-- Induction over the iterations of the page loop: a property of executions
that holds at each way of leaving the loop and is carried over an iteration
holds of every execution of the loop. -/
theorem pageLoop_rule (motive : Int → Exec σ → Prop)
    (exit : ∀ i s, ¬ i ≤ totalPages → motive i ⟨Outcome.returned, s, []⟩)
    (zero : ∀ i s, i ≤ totalPages → motive i ⟨Outcome.outOfFuel, s, []⟩)
    (listErr : ∀ i s s1 e, i ≤ totalPages →
      client.WorkspacesList s organization (some ⟨⟨i⟩, wildcard⟩) = (Result.err e, s1) →
      motive i ⟨Outcome.fatal e, s1,
        [Event.list organization (some ⟨⟨i⟩, wildcard⟩) (Result.err e), Event.log e]⟩)
    (itemsStop : ∀ i s s1 page, i ≤ totalPages →
      client.WorkspacesList s organization (some ⟨⟨i⟩, wildcard⟩) = (Result.ok page, s1) →
      (itemLoop client page.Items s1).outcome ≠ Outcome.returned →
      motive i ⟨(itemLoop client page.Items s1).outcome, (itemLoop client page.Items s1).state,
        Event.list organization (some ⟨⟨i⟩, wildcard⟩) (Result.ok page)
          :: (itemLoop client page.Items s1).trace⟩)
    (next : ∀ i s s1 page x, i ≤ totalPages →
      client.WorkspacesList s organization (some ⟨⟨i⟩, wildcard⟩) = (Result.ok page, s1) →
      (itemLoop client page.Items s1).outcome = Outcome.returned →
      motive (wrapInt (i + 1)) x →
      motive i ⟨x.outcome, x.state,
        Event.list organization (some ⟨⟨i⟩, wildcard⟩) (Result.ok page)
          :: ((itemLoop client page.Items s1).trace ++ x.trace)⟩)
    (fuel : Nat) (i : Int) (s : σ) :
    motive i (pageLoop client organization wildcard totalPages fuel i s) := by
  induction fuel generalizing i s with
  | zero =>
    by_cases h : i ≤ totalPages
    · rw [pageLoop_zero _ _ _ _ _ _ h]; exact zero i s h
    · rw [pageLoop_exit _ _ _ _ _ _ _ h]; exact exit i s h
  | succ fuel ih =>
    by_cases h : i ≤ totalPages
    · rcases hl : client.WorkspacesList s organization (some ⟨⟨i⟩, wildcard⟩) with ⟨r, s1⟩
      cases r with
      | err e => rw [pageLoop_listErr _ _ _ _ _ _ _ _ _ h hl]; exact listErr i s s1 e h hl
      | ok page =>
        by_cases hi : (itemLoop client page.Items s1).outcome = Outcome.returned
        · rw [pageLoop_next _ _ _ _ _ _ _ _ _ h hl hi]
          exact next i s s1 page _ h hl hi (ih _ _)
        · rw [pageLoop_itemsStop _ _ _ _ _ _ _ _ _ h hl hi]
          exact itemsStop i s s1 page h hl hi
    · rw [pageLoop_exit _ _ _ _ _ _ _ h]; exact exit i s h

end PageLoop

/-! ## What every execution satisfies -/

theorem listedWorkspaces_append (a b : List Event) :
    listedWorkspaces (a ++ b) = listedWorkspaces a ++ listedWorkspaces b := by
  induction a with
  | nil => rfl
  | cons ev a ih => simp [listedWorkspaces, ih]

theorem createRequests_append (a b : List Event) :
    createRequests (a ++ b) = createRequests a ++ createRequests b := by
  simp [createRequests]

theorem listRequests_append (a b : List Event) :
    listRequests (a ++ b) = listRequests a ++ listRequests b := by
  simp [listRequests]

theorem logLines_append (a b : List Event) :
    logLines (a ++ b) = logLines a ++ logLines b := by
  simp [logLines]

theorem noFailure_append {a b : List Event} (ha : NoFailure a) (hb : NoFailure b) :
    NoFailure (a ++ b) := by
  intro ev hev
  rcases List.mem_append.mp hev with h | h
  · exact ha ev h
  · exact hb ev h

theorem balanced_append {a b : List Event} (ha : Balanced a) (hb : Balanced b) :
    Balanced (a ++ b) := by
  unfold Balanced at *
  rw [createRequests_append, listedWorkspaces_append, List.map_append, ha, hb]

theorem Consistent.prepend {o : Outcome} {t : List Event} (a : List Event)
    (hf : NoFailure a) (hb : Balanced a) (h : Consistent o t) : Consistent o (a ++ t) := by
  cases h with
  | running o t hne hnf hbal => exact Consistent.running o _ hne (noFailure_append hf hnf) (balanced_append hb hbal)
  | listFailed pre org options e hnf hbal =>
    rw [← List.append_assoc]
    exact Consistent.listFailed _ org options e (noFailure_append hf hnf) (balanced_append hb hbal)
  | createFailed pre options e hnf hpre =>
    rw [← List.append_assoc]
    refine Consistent.createFailed _ options e (noFailure_append hf hnf) ?_
    rw [createRequests_append, listedWorkspaces_append, List.map_append, List.append_assoc, hb]
    exact (List.prefix_append_right_inj _).mpr hpre

theorem itemsTrace_createRequests (items : List Workspace) :
    createRequests (itemsTrace items) = items.map Workspace.ID := by
  induction items with
  | nil => rfl
  | cons w rest ih =>
    rw [itemsTrace, createRequests_append, ih]
    rfl

theorem itemsTrace_listRequests (items : List Workspace) :
    listRequests (itemsTrace items) = [] := by
  induction items with
  | nil => rfl
  | cons w rest ih =>
    rw [itemsTrace, listRequests_append, ih]
    rfl

theorem itemsTrace_listedWorkspaces (items : List Workspace) :
    listedWorkspaces (itemsTrace items) = [] := by
  induction items with
  | nil => rfl
  | cons w rest ih =>
    rw [itemsTrace, listedWorkspaces_append, ih]
    rfl

theorem itemsTrace_logLines (items : List Workspace) :
    logLines (itemsTrace items) = items.map fun w => "Workspace: " ++ w.Name := by
  induction items with
  | nil => rfl
  | cons w rest ih =>
    rw [itemsTrace, logLines_append, ih]
    rfl

theorem itemsTrace_noFailure (items : List Workspace) : NoFailure (itemsTrace items) := by
  induction items with
  | nil => intro ev hev; cases hev
  | cons w rest ih =>
    rw [itemsTrace]
    refine noFailure_append ?_ ih
    intro ev hev
    simp only [itemEvents, List.mem_cons, List.mem_singleton, List.not_mem_nil, or_false] at hev
    rcases hev with h | h <;> subst h <;> rfl

/-- One completed page: the successful listing followed by its item loop. -/
theorem page_noFailure (org : String) (options : Option WorkspaceListOptions)
    (page : WorkspaceList) (items : List Workspace) :
    NoFailure (Event.list org options (Result.ok page) :: itemsTrace items) := by
  intro ev hev
  rcases List.mem_cons.mp hev with h | h
  · subst h; rfl
  · exact itemsTrace_noFailure items ev h

theorem page_balanced (org : String) (options : WorkspaceListOptions) (page : WorkspaceList) :
    Balanced (Event.list org (some options) (Result.ok page) :: itemsTrace page.Items) := by
  unfold Balanced
  have h1 : createRequests (Event.list org (some options) (Result.ok page) :: itemsTrace page.Items)
      = createRequests (itemsTrace page.Items) := rfl
  rw [h1, itemsTrace_createRequests, listedWorkspaces, itemsTrace_listedWorkspaces,
    List.append_nil]
  rfl

section Invariant

variable {σ : Type} (client : Client σ) (organization wildcard : String) (totalPages : Int)

theorem pageLoop_consistent (fuel : Nat) (i : Int) (s : σ) :
    Consistent (pageLoop client organization wildcard totalPages fuel i s).outcome
      (pageLoop client organization wildcard totalPages fuel i s).trace := by
  refine pageLoop_rule client organization wildcard totalPages
    (fun _ x => Consistent x.outcome x.trace) ?_ ?_ ?_ ?_ ?_ fuel i s
  · intro i s _
    exact Consistent.running _ _ (fun e h => by cases h) (fun ev h => by cases h) rfl
  · intro i s _
    exact Consistent.running _ _ (fun e h => by cases h) (fun ev h => by cases h) rfl
  · intro i s s1 e _ _
    exact Consistent.listFailed [] organization _ e (fun ev h => by cases h) rfl
  · intro i s s1 page _ _ hne
    rcases itemLoop_shape client page.Items s1 with ⟨ho, _⟩ | ⟨e, done, w, rest, hi, ho, ht⟩
    · exact absurd ho hne
    · show Consistent (itemLoop client page.Items s1).outcome
        (Event.list organization (some ⟨⟨i⟩, wildcard⟩) (Result.ok page)
          :: (itemLoop client page.Items s1).trace)
      rw [ho, ht]
      have hsplit : Event.list organization (some ⟨⟨i⟩, wildcard⟩) (Result.ok page)
          :: (itemsTrace done ++ [Event.log ("Workspace: " ++ w.Name),
            Event.create ⟨⟨w.ID, ""⟩⟩ (Result.err e), Event.log e])
          = (Event.list organization (some ⟨⟨i⟩, wildcard⟩) (Result.ok page)
              :: (itemsTrace done ++ [Event.log ("Workspace: " ++ w.Name)]))
            ++ [Event.create ⟨⟨w.ID, ""⟩⟩ (Result.err e), Event.log e] := by simp
      rw [hsplit]
      refine Consistent.createFailed _ _ e ?_ ?_
      · intro ev hev
        rcases List.mem_cons.mp hev with h | h
        · subst h; rfl
        · rcases List.mem_append.mp h with h | h
          · exact itemsTrace_noFailure done ev h
          · rw [List.mem_singleton.mp h]; rfl
      · have hc : createRequests (Event.list organization (some ⟨⟨i⟩, wildcard⟩) (Result.ok page)
            :: (itemsTrace done ++ [Event.log ("Workspace: " ++ w.Name)]))
            = done.map Workspace.ID := by
          have : createRequests (Event.list organization (some ⟨⟨i⟩, wildcard⟩) (Result.ok page)
            :: (itemsTrace done ++ [Event.log ("Workspace: " ++ w.Name)]))
            = createRequests (itemsTrace done ++ [Event.log ("Workspace: " ++ w.Name)]) := rfl
          rw [this, createRequests_append, itemsTrace_createRequests]
          simp [createRequests, Event.createRequest]
        have hl : listedWorkspaces (Event.list organization (some ⟨⟨i⟩, wildcard⟩) (Result.ok page)
            :: (itemsTrace done ++ [Event.log ("Workspace: " ++ w.Name)]))
            = page.Items := by
          rw [listedWorkspaces, listedWorkspaces_append, itemsTrace_listedWorkspaces]
          simp [listedWorkspaces, Event.listed]
        rw [hc, hl, hi]
        simp
  · intro i s s1 page x _ _ hret hx
    rcases itemLoop_shape client page.Items s1 with ⟨_, ht⟩ | ⟨e, _, _, _, _, ho, _⟩
    · show Consistent x.outcome (Event.list organization (some ⟨⟨i⟩, wildcard⟩) (Result.ok page)
          :: ((itemLoop client page.Items s1).trace ++ x.trace))
      rw [ht, ← List.cons_append]
      exact hx.prepend _ (page_noFailure _ _ _ _) (page_balanced _ _ _)
    · rw [ho] at hret; cases hret

theorem runWorkspaceCmd_consistent (tfeConfig : config) (fuel : Nat) (s : σ) :
    Consistent (runWorkspaceCmd client tfeConfig wildcard fuel s).outcome
      (runWorkspaceCmd client tfeConfig wildcard fuel s).trace := by
  rcases h : client.WorkspacesList s tfeConfig.TFE_ORG none with ⟨r, s1⟩
  cases r with
  | err e =>
    simp only [runWorkspaceCmd, h]
    exact Consistent.listFailed [] _ none e (fun ev h => by cases h) rfl
  | ok page =>
    simp only [runWorkspaceCmd, h]
    exact (pageLoop_consistent client tfeConfig.TFE_ORG wildcard page.TotalPages fuel 1 s1).prepend
      [Event.list tfeConfig.TFE_ORG none (Result.ok page)]
      (fun ev hev => by rw [List.mem_singleton.mp hev]; rfl) rfl

end Invariant

/-! ## Listing requests of the loops -/

section Requests

variable {σ : Type} (client : Client σ) (organization wildcard : String) (totalPages : Int)

theorem itemLoop_listRequests (items : List Workspace) (s : σ) :
    listRequests (itemLoop client items s).trace = [] := by
  rcases itemLoop_shape client items s with ⟨_, ht⟩ | ⟨e, done, w, rest, _, _, ht⟩
  · rw [ht, itemsTrace_listRequests]
  · rw [ht, listRequests_append, itemsTrace_listRequests]
    rfl

theorem pageLoop_listRequests (fuel : Nat) (i : Int) (s : σ) :
    ∀ r ∈ listRequests (pageLoop client organization wildcard totalPages fuel i s).trace,
      ∃ j, r = pageRequest organization wildcard j := by
  refine pageLoop_rule client organization wildcard totalPages
    (fun _ x => ∀ r ∈ listRequests x.trace, ∃ j, r = pageRequest organization wildcard j)
    ?_ ?_ ?_ ?_ ?_ fuel i s
  · intro i s _ r hr; cases hr
  · intro i s _ r hr; cases hr
  · intro i s s1 e _ _ r hr
    have : listRequests [Event.list organization (some ⟨⟨i⟩, wildcard⟩) (Result.err e),
        Event.log e] = [pageRequest organization wildcard i] := rfl
    rw [this, List.mem_singleton] at hr
    exact ⟨i, hr⟩
  · intro i s s1 page _ _ _ r hr
    have : listRequests (Event.list organization (some ⟨⟨i⟩, wildcard⟩) (Result.ok page)
        :: (itemLoop client page.Items s1).trace)
        = pageRequest organization wildcard i
          :: listRequests (itemLoop client page.Items s1).trace := rfl
    rw [this, itemLoop_listRequests, List.mem_singleton] at hr
    exact ⟨i, hr⟩
  · intro i s s1 page x _ _ _ hx r hr
    have : listRequests (Event.list organization (some ⟨⟨i⟩, wildcard⟩) (Result.ok page)
        :: ((itemLoop client page.Items s1).trace ++ x.trace))
        = pageRequest organization wildcard i
          :: listRequests ((itemLoop client page.Items s1).trace ++ x.trace) := rfl
    rw [this, listRequests_append, itemLoop_listRequests, List.nil_append, List.mem_cons] at hr
    rcases hr with h | h
    · exact ⟨i, h⟩
    · exact hx r h

end Requests

/-! ## Executions in which no call fails -/

theorem pagesFrom_ofNat (a n : Nat) :
    pagesFrom (Int.ofNat a) n = (List.range' a n).map Int.ofNat := by
  induction n generalizing a with
  | zero => rfl
  | succ n ih =>
    rw [pagesFrom, List.range'_succ, List.map_cons]
    have h : (Int.ofNat a + 1) = Int.ofNat (a + 1) := rfl
    rw [h, ih]

theorem pagesFrom_one (n : Int) : pagesFrom 1 n.toNat = pagesUpTo n :=
  pagesFrom_ofNat 1 n.toNat

theorem pagesFrom_length (i : Int) (n : Nat) : (pagesFrom i n).length = n := by
  induction n generalizing i with
  | zero => rfl
  | succ n ih => simp [pagesFrom, ih]

theorem wrapInt_in_range (i : Int) (h1 : minInt ≤ i) (h2 : i ≤ maxInt) : wrapInt i = i := by
  unfold wrapInt; unfold minInt at h1; unfold maxInt at h2; omega

theorem wrapInt_le (i : Int) : wrapInt i ≤ maxInt := by
  unfold wrapInt maxInt; omega

section Succeeding

variable {σ : Type} (client : Client σ) (organization wildcard : String) (totalPages : Int)

theorem itemLoop_succeeds (hok : client.AlwaysSucceeds) (items : List Workspace) (s : σ) :
    (itemLoop client items s).outcome = Outcome.returned ∧
      (itemLoop client items s).trace = itemsTrace items := by
  induction items generalizing s with
  | nil => exact ⟨rfl, rfl⟩
  | cons w rest ih =>
    rcases h : client.RunsCreate s ⟨⟨w.ID, ""⟩⟩ with ⟨r, s1⟩
    have h2 := hok.2 s ⟨⟨w.ID, ""⟩⟩
    rw [h] at h2
    simp only at h2
    subst h2
    have := ih s1
    simp [itemLoop, h, itemsTrace, itemEvents, this.1, this.2]

/-- With a service that never fails and a page count below the largest `int`,
the page loop entered at `i` returns after the pages `i, ..., totalPages`. -/
theorem pageLoop_succeeds (hok : client.AlwaysSucceeds) (hN : totalPages < maxInt)
    (n : Nat) : ∀ (fuel : Nat) (i : Int) (s : σ), minInt ≤ i →
      (totalPages + 1 - i).toNat = n → n ≤ fuel →
      (pageLoop client organization wildcard totalPages fuel i s).outcome = Outcome.returned ∧
      listRequests (pageLoop client organization wildcard totalPages fuel i s).trace
        = (pagesFrom i n).map (pageRequest organization wildcard) := by
  induction n with
  | zero =>
    intro fuel i s _ hn _
    have h : ¬ i ≤ totalPages := by omega
    rw [pageLoop_exit _ _ _ _ _ _ _ h]
    exact ⟨rfl, rfl⟩
  | succ n ih =>
    intro fuel i s hi hn hfuel
    have h : i ≤ totalPages := by omega
    obtain ⟨f, rfl⟩ : ∃ f, fuel = f + 1 := ⟨fuel - 1, by omega⟩
    obtain ⟨page, hpage⟩ := hok.1 s organization (some ⟨⟨i⟩, wildcard⟩)
    rcases hl : client.WorkspacesList s organization (some ⟨⟨i⟩, wildcard⟩) with ⟨r, s1⟩
    rw [hl] at hpage
    simp only at hpage
    subst hpage
    have hitems := itemLoop_succeeds client hok page.Items s1
    rw [pageLoop_next _ _ _ _ _ _ _ _ _ h hl hitems.1]
    have hw : wrapInt (i + 1) = i + 1 :=
      wrapInt_in_range _ (by unfold minInt at *; omega) (by unfold maxInt at *; omega)
    rw [hw]
    have hrec := ih f (i + 1) (itemLoop client page.Items s1).state
      (by unfold minInt at *; omega) (by omega) (by omega)
    refine ⟨hrec.1, ?_⟩
    show listRequests (Event.list organization (some ⟨⟨i⟩, wildcard⟩) (Result.ok page)
        :: ((itemLoop client page.Items s1).trace ++ _)) = _
    have : ∀ t, listRequests (Event.list organization (some ⟨⟨i⟩, wildcard⟩) (Result.ok page)
        :: t) = pageRequest organization wildcard i :: listRequests t := fun _ => rfl
    rw [this, listRequests_append, itemLoop_listRequests, List.nil_append, hrec.2]
    rfl

theorem pageLoop_noFatal (hok : client.AlwaysSucceeds) (fuel : Nat) (i : Int) (s : σ) :
    ∀ e, (pageLoop client organization wildcard totalPages fuel i s).outcome
      ≠ Outcome.fatal e := by
  refine pageLoop_rule client organization wildcard totalPages
    (fun _ x => ∀ e, x.outcome ≠ Outcome.fatal e) ?_ ?_ ?_ ?_ ?_ fuel i s
  · intro i s _ e h; cases h
  · intro i s _ e h; cases h
  · intro i s s1 e _ hl
    obtain ⟨page, hpage⟩ := hok.1 s organization (some ⟨⟨i⟩, wildcard⟩)
    rw [hl] at hpage
    cases hpage
  · intro i s s1 page _ _ hne
    exact absurd (itemLoop_succeeds client hok page.Items s1).1 hne
  · intro i s s1 page x _ _ _ hx
    exact hx

/-- With a service that never fails and a page count equal to the largest
`int`, the counter wraps around and the page loop never ends. -/
theorem pageLoop_endless (hok : client.AlwaysSucceeds) (hN : maxInt ≤ totalPages)
    (fuel : Nat) : ∀ (i : Int) (s : σ), i ≤ maxInt →
      (pageLoop client organization wildcard totalPages fuel i s).outcome
        = Outcome.outOfFuel := by
  induction fuel with
  | zero =>
    intro i s hi
    rw [pageLoop_zero _ _ _ _ _ _ (le_trans hi hN)]
  | succ f ih =>
    intro i s hi
    obtain ⟨page, hpage⟩ := hok.1 s organization (some ⟨⟨i⟩, wildcard⟩)
    rcases hl : client.WorkspacesList s organization (some ⟨⟨i⟩, wildcard⟩) with ⟨r, s1⟩
    rw [hl] at hpage
    simp only at hpage
    subst hpage
    rw [pageLoop_next _ _ _ _ _ _ _ _ _ (le_trans hi hN) hl
      (itemLoop_succeeds client hok page.Items s1).1]
    exact ih _ _ (wrapInt_le _)

end Succeeding

/-! ## The dispatch as a whole -/

section Dispatch

variable {σ : Type} (client : Client σ) (tfeConfig : config) (wildcard : String)

theorem runWorkspaceCmd_ok (fuel : Nat) (s s1 : σ) (first : WorkspaceList)
    (h : client.WorkspacesList s tfeConfig.TFE_ORG none = (Result.ok first, s1)) :
    runWorkspaceCmd client tfeConfig wildcard fuel s =
      ⟨(pageLoop client tfeConfig.TFE_ORG wildcard first.TotalPages fuel 1 s1).outcome,
       (pageLoop client tfeConfig.TFE_ORG wildcard first.TotalPages fuel 1 s1).state,
       Event.list tfeConfig.TFE_ORG none (Result.ok first)
         :: (pageLoop client tfeConfig.TFE_ORG wildcard first.TotalPages fuel 1 s1).trace⟩ := by
  simp only [runWorkspaceCmd, h]

theorem runWorkspaceCmd_listRequests (fuel : Nat) (s : σ) :
    ∃ rest, listRequests (runWorkspaceCmd client tfeConfig wildcard fuel s).trace
        = (tfeConfig.TFE_ORG, none) :: rest ∧
      ∀ r ∈ rest, ∃ j, r = pageRequest tfeConfig.TFE_ORG wildcard j := by
  rcases h : client.WorkspacesList s tfeConfig.TFE_ORG none with ⟨r, s1⟩
  cases r with
  | err e =>
    refine ⟨[], ?_, fun r hr => by cases hr⟩
    simp only [runWorkspaceCmd, h]
    rfl
  | ok first =>
    rw [runWorkspaceCmd_ok client tfeConfig wildcard fuel s s1 first h]
    exact ⟨_, rfl, pageLoop_listRequests client _ _ _ fuel 1 s1⟩

theorem runWorkspaceCmd_succeeds (hok : client.AlwaysSucceeds) (fuel : Nat) (s s1 : σ)
    (first : WorkspaceList)
    (h : client.WorkspacesList s tfeConfig.TFE_ORG none = (Result.ok first, s1))
    (hN : first.TotalPages < maxInt) (hfuel : first.TotalPages.toNat ≤ fuel) :
    (runWorkspaceCmd client tfeConfig wildcard fuel s).outcome = Outcome.returned ∧
    listRequests (runWorkspaceCmd client tfeConfig wildcard fuel s).trace
      = (tfeConfig.TFE_ORG, none)
        :: (pagesUpTo first.TotalPages).map (pageRequest tfeConfig.TFE_ORG wildcard) := by
  rw [runWorkspaceCmd_ok client tfeConfig wildcard fuel s s1 first h]
  have hp := pageLoop_succeeds client tfeConfig.TFE_ORG wildcard first.TotalPages hok hN
    first.TotalPages.toNat fuel 1 s1 (by unfold minInt; omega) (by simp) hfuel
  refine ⟨hp.1, ?_⟩
  show (tfeConfig.TFE_ORG, none) :: listRequests _ = _
  rw [hp.2, pagesFrom_one]

theorem runWorkspaceCmd_noFatal (hok : client.AlwaysSucceeds) (fuel : Nat) (s : σ) :
    ∀ e, (runWorkspaceCmd client tfeConfig wildcard fuel s).outcome ≠ Outcome.fatal e := by
  obtain ⟨first, hfirst⟩ := hok.1 s tfeConfig.TFE_ORG none
  rcases h : client.WorkspacesList s tfeConfig.TFE_ORG none with ⟨r, s1⟩
  rw [h] at hfirst
  simp only at hfirst
  subst hfirst
  rw [runWorkspaceCmd_ok client tfeConfig wildcard fuel s s1 first h]
  exact pageLoop_noFatal client _ _ _ hok fuel 1 s1

end Dispatch

theorem pageNumbers_requests (org wild : String) (pages : List Int) :
    ((pages.map (pageRequest org wild)).filterMap
      fun r => r.2.map fun o => o.ListOptions.PageNumber) = pages := by
  induction pages with
  | nil => rfl
  | cons p rest ih =>
    rw [List.map_cons, List.filterMap_cons]
    simp only [pageRequest, Option.map_some']
    exact congrArg _ ih

theorem pagesUpTo_sorted (n : Int) : List.Sorted (· < ·) (pagesUpTo n) := by
  unfold pagesUpTo List.Sorted
  rw [List.pairwise_map]
  exact (List.pairwise_lt_range' 1 n.toNat).imp fun h => Int.ofNat_lt.mpr h

theorem pagesUpTo_length (n : Int) : (pagesUpTo n).length = n.toNat := by
  simp [pagesUpTo]

theorem scenarioClient_succeeds : scenarioClient.AlwaysSucceeds := by
  constructor
  · intro s org options
    cases options with
    | none => exact ⟨_, rfl⟩
    | some o =>
      simp only [scenarioClient]
      split_ifs <;> exact ⟨_, rfl⟩
  · intro s options; rfl

theorem onePageClient_succeeds : onePageClient.AlwaysSucceeds :=
  ⟨fun _ _ _ => ⟨_, rfl⟩, fun _ _ => rfl⟩

theorem endlessClient_succeeds : endlessClient.AlwaysSucceeds :=
  ⟨fun _ _ _ => ⟨_, rfl⟩, fun _ _ => rfl⟩

/-! ## The claims -/

/-- C1, as stated, fails: against a service that never fails and reports one
page on every response, the dispatch issues two listing requests, the first of
them without options, where the claim has the single request for page 1. -/
theorem C1_listing_requests_counterexample :
    onePageClient.AlwaysSucceeds ∧
    (runWorkspaceCmd onePageClient ⟨"", "cbh"⟩ "baseline-*" 1 ()).outcome = Outcome.returned ∧
    listRequests (runWorkspaceCmd onePageClient ⟨"", "cbh"⟩ "baseline-*" 1 ()).trace
      = [("cbh", none), pageRequest "cbh" "baseline-*" 1] ∧
    listRequests (runWorkspaceCmd onePageClient ⟨"", "cbh"⟩ "baseline-*" 1 ()).trace
      ≠ (pagesUpTo 1).map (pageRequest "cbh" "baseline-*") := by
  refine ⟨onePageClient_succeeds, by decide, by decide, by decide⟩

/-- C1, amended: when no call fails and the first listing response reports a
page count `N` below the largest `int`, the dispatch returns, and its listing
requests are one first request without options followed by the requests for
the pages `1, 2, ..., N`, each exactly once and in ascending order. -/
theorem C1_listing_requests {σ : Type} (client : Client σ) (tfeConfig : config)
    (wildcard : String) (fuel : Nat) (s s1 : σ) (first : WorkspaceList)
    (hok : client.AlwaysSucceeds)
    (hfirst : client.WorkspacesList s tfeConfig.TFE_ORG none = (Result.ok first, s1))
    (hN : first.TotalPages < maxInt) (hfuel : first.TotalPages.toNat ≤ fuel) :
    (runWorkspaceCmd client tfeConfig wildcard fuel s).outcome = Outcome.returned ∧
    listRequests (runWorkspaceCmd client tfeConfig wildcard fuel s).trace
      = (tfeConfig.TFE_ORG, none)
        :: (pagesUpTo first.TotalPages).map (pageRequest tfeConfig.TFE_ORG wildcard) ∧
    pageNumbers (runWorkspaceCmd client tfeConfig wildcard fuel s).trace
      = pagesUpTo first.TotalPages ∧
    List.Sorted (· < ·) (pageNumbers (runWorkspaceCmd client tfeConfig wildcard fuel s).trace) := by
  have h := runWorkspaceCmd_succeeds client tfeConfig wildcard hok fuel s s1 first hfirst hN hfuel
  have hp : pageNumbers (runWorkspaceCmd client tfeConfig wildcard fuel s).trace
      = pagesUpTo first.TotalPages := by
    unfold pageNumbers
    rw [h.2, List.filterMap_cons]
    exact pageNumbers_requests _ _ _
  exact ⟨h.1, h.2, hp, hp ▸ pagesUpTo_sorted _⟩

/-- C1, amended, at work: the two-page scenario. -/
theorem C1_listing_requests_witness :
    pageNumbers (runWorkspaceCmd scenarioClient ⟨"", "cbh"⟩ "baseline-*" 2 ()).trace
      = pagesUpTo 2 :=
  (C1_listing_requests scenarioClient ⟨"", "cbh"⟩ "baseline-*" 2 () ()
    ⟨2, [⟨"ws-1", "baseline-a"⟩]⟩ scenarioClient_succeeds rfl (by decide) (by decide)).2.2.1

theorem runWorkspaceCmd_wildcard {σ : Type} (client : Client σ) (tfeConfig : config)
    (wildcard : String) (fuel : Nat) (s : σ) (org : String) (options : WorkspaceListOptions)
    (response : Result WorkspaceList)
    (h : Event.list org (some options) response
      ∈ (runWorkspaceCmd client tfeConfig wildcard fuel s).trace) :
    org = tfeConfig.TFE_ORG ∧ options.WildcardName = wildcard := by
  obtain ⟨rest, hl, hrest⟩ := runWorkspaceCmd_listRequests client tfeConfig wildcard fuel s
  have hm : (org, some options)
      ∈ listRequests (runWorkspaceCmd client tfeConfig wildcard fuel s).trace :=
    List.mem_filterMap.mpr ⟨_, h, rfl⟩
  rw [hl, List.mem_cons] at hm
  rcases hm with hm | hm
  · cases hm
  · obtain ⟨j, hj⟩ := hrest _ hm
    simp only [pageRequest, Prod.mk.injEq, Option.some.injEq] at hj
    exact ⟨hj.1, by rw [hj.2]⟩

/-- C10, as stated, fails at the largest page count an `int` can hold: the
first response reports `maxInt` pages, no call fails, and the loop counter
wraps around instead of passing the bound, so no number of iterations lets the
dispatch return. -/
theorem C10_page_loop_bound_counterexample :
    endlessClient.AlwaysSucceeds ∧
    endlessClient.WorkspacesList () "cbh" none = (Result.ok ⟨maxInt, []⟩, ()) ∧
    ∀ fuel, (runWorkspaceCmd endlessClient ⟨"", "cbh"⟩ "baseline-*" fuel ()).outcome
      = Outcome.outOfFuel := by
  refine ⟨endlessClient_succeeds, rfl, fun fuel => ?_⟩
  rw [runWorkspaceCmd_ok endlessClient ⟨"", "cbh"⟩ "baseline-*" fuel () () ⟨maxInt, []⟩ rfl]
  exact pageLoop_endless endlessClient "cbh" "baseline-*" maxInt endlessClient_succeeds
    (le_refl _) fuel 1 () (by decide)

/-- C10, amended: the page loop is bounded by the first listing response only.
When no call fails and the first response reports a page count `N` below the
largest `int`, the dispatch returns after exactly `1 + max N 0` listing calls,
the first one and then the pages `1, ..., N` in ascending order, whatever the
later responses report; when `N ≤ 0` the first listing call is all it does. -/
theorem C10_page_loop_bound {σ : Type} (client : Client σ) (tfeConfig : config)
    (wildcard : String) (fuel : Nat) (s s1 : σ) (first : WorkspaceList)
    (hok : client.AlwaysSucceeds)
    (hfirst : client.WorkspacesList s tfeConfig.TFE_ORG none = (Result.ok first, s1))
    (hN : first.TotalPages < maxInt) (hfuel : first.TotalPages.toNat ≤ fuel) :
    (runWorkspaceCmd client tfeConfig wildcard fuel s).outcome = Outcome.returned ∧
    ((listRequests (runWorkspaceCmd client tfeConfig wildcard fuel s).trace).length : Int)
      = 1 + max first.TotalPages 0 ∧
    listRequests (runWorkspaceCmd client tfeConfig wildcard fuel s).trace
      = (tfeConfig.TFE_ORG, none)
        :: (pagesUpTo first.TotalPages).map (pageRequest tfeConfig.TFE_ORG wildcard) ∧
    (first.TotalPages ≤ 0 →
      (runWorkspaceCmd client tfeConfig wildcard fuel s).trace
        = [Event.list tfeConfig.TFE_ORG none (Result.ok first)]) := by
  have h := runWorkspaceCmd_succeeds client tfeConfig wildcard hok fuel s s1 first hfirst hN hfuel
  refine ⟨h.1, ?_, h.2, ?_⟩
  · rw [h.2, List.length_cons, List.length_map, pagesUpTo_length]
    omega
  · intro hle
    rw [runWorkspaceCmd_ok client tfeConfig wildcard fuel s s1 first hfirst,
      pageLoop_exit _ _ _ _ _ _ _ (by omega)]

/-- C10, amended, at work: the two-page scenario makes three listing calls. -/
theorem C10_page_loop_bound_witness :
    ((listRequests (runWorkspaceCmd scenarioClient ⟨"", "cbh"⟩ "baseline-*" 2 ()).trace).length
      : Int) = 1 + max 2 0 :=
  (C10_page_loop_bound scenarioClient ⟨"", "cbh"⟩ "baseline-*" 2 () ()
    ⟨2, [⟨"ws-1", "baseline-a"⟩]⟩ scenarioClient_succeeds rfl (by decide) (by decide)).2.1

theorem replay_append {σ : Type} (client : Client σ) (a b : List Event) (s : σ) :
    replay client s (a ++ b) = (replay client s a).bind fun s1 => replay client s1 b := by
  induction a generalizing s with
  | nil => rfl
  | cons ev a ih =>
    cases ev with
    | list org options response =>
      simp only [List.cons_append, replay]
      split
      · exact ih _
      · rfl
    | create options response =>
      simp only [List.cons_append, replay]
      split
      · exact ih _
      · rfl
    | log line =>
      simp only [List.cons_append, replay]
      exact ih _

theorem itemLoop_replay {σ : Type} (client : Client σ) (items : List Workspace) (s : σ) :
    replay client s (itemLoop client items s).trace = some (itemLoop client items s).state := by
  induction items generalizing s with
  | nil => rfl
  | cons w rest ih =>
    rcases h : client.RunsCreate s ⟨⟨w.ID, ""⟩⟩ with ⟨r, s1⟩
    cases r with
    | err e => simp [itemLoop, h, replay]
    | ok u =>
      have := ih s1
      simp [itemLoop, h, replay, this]

theorem pageLoop_replay {σ : Type} (client : Client σ) (organization wildcard : String)
    (totalPages : Int) (fuel : Nat) : ∀ (i : Int) (s : σ),
      replay client s (pageLoop client organization wildcard totalPages fuel i s).trace
        = some (pageLoop client organization wildcard totalPages fuel i s).state := by
  induction fuel with
  | zero =>
    intro i s
    by_cases h : i ≤ totalPages
    · rw [pageLoop_zero _ _ _ _ _ _ h]; rfl
    · rw [pageLoop_exit _ _ _ _ _ _ _ h]; rfl
  | succ fuel ih =>
    intro i s
    by_cases h : i ≤ totalPages
    · rcases hl : client.WorkspacesList s organization (some ⟨⟨i⟩, wildcard⟩) with ⟨r, s1⟩
      cases r with
      | err e =>
        rw [pageLoop_listErr _ _ _ _ _ _ _ _ _ h hl]
        simp [replay, hl]
      | ok page =>
        by_cases hi : (itemLoop client page.Items s1).outcome = Outcome.returned
        · rw [pageLoop_next _ _ _ _ _ _ _ _ _ h hl hi]
          simp only [replay, hl, if_true]
          rw [replay_append, itemLoop_replay, Option.some_bind]
          exact ih _ _
        · rw [pageLoop_itemsStop _ _ _ _ _ _ _ _ _ h hl hi]
          simp only [replay, hl, if_true]
          exact itemLoop_replay client page.Items s1
    · rw [pageLoop_exit _ _ _ _ _ _ _ h]; rfl

/-- The trace of a dispatch is a run of the service: each recorded response is
the answer the service gave, in the state the calls before it left. -/
theorem runWorkspaceCmd_replay {σ : Type} (client : Client σ) (tfeConfig : config)
    (wildcard : String) (fuel : Nat) (s : σ) :
    replay client s (runWorkspaceCmd client tfeConfig wildcard fuel s).trace
      = some (runWorkspaceCmd client tfeConfig wildcard fuel s).state := by
  rcases h : client.WorkspacesList s tfeConfig.TFE_ORG none with ⟨r, s1⟩
  cases r with
  | err e => simp [runWorkspaceCmd, h, replay]
  | ok first =>
    rw [runWorkspaceCmd_ok client tfeConfig wildcard fuel s s1 first h]
    simp only [replay, h, if_true]
    exact pageLoop_replay client _ _ _ fuel 1 s1

/-- C2: against a service that never fails, the run-creation calls of the
dispatch are exactly the IDs of the workspaces returned by the listing pages
for the pattern, in page order and then item order.  The trace is a run of the
service (each recorded response is the service's answer); its run-creation
calls are, at the end of every iteration of the page loop, the IDs of the
workspaces its per-page listings returned, each of those listings being one
for the pattern; and when the page count `N` of the first response is below
the largest `int` the dispatch returns having listed exactly the pages
`1, ..., N` for the pattern, so that every workspace of those pages has its
run. -/
theorem C2_creations_match_listings {σ : Type} (client : Client σ) (tfeConfig : config)
    (wildcard : String) (fuel : Nat) (s : σ) (hok : client.AlwaysSucceeds) :
    replay client s (runWorkspaceCmd client tfeConfig wildcard fuel s).trace
      = some (runWorkspaceCmd client tfeConfig wildcard fuel s).state ∧
    createRequests (runWorkspaceCmd client tfeConfig wildcard fuel s).trace
      = (listedWorkspaces (runWorkspaceCmd client tfeConfig wildcard fuel s).trace).map
          Workspace.ID ∧
    (∀ org options response, Event.list org (some options) response
        ∈ (runWorkspaceCmd client tfeConfig wildcard fuel s).trace →
      options.WildcardName = wildcard) ∧
    ∀ first s1, client.WorkspacesList s tfeConfig.TFE_ORG none = (Result.ok first, s1) →
      first.TotalPages < maxInt → first.TotalPages.toNat ≤ fuel →
      (runWorkspaceCmd client tfeConfig wildcard fuel s).outcome = Outcome.returned ∧
      listRequests (runWorkspaceCmd client tfeConfig wildcard fuel s).trace
        = (tfeConfig.TFE_ORG, none)
          :: (pagesUpTo first.TotalPages).map (pageRequest tfeConfig.TFE_ORG wildcard) := by
  refine ⟨runWorkspaceCmd_replay client tfeConfig wildcard fuel s, ?_,
    fun org options response h =>
      (runWorkspaceCmd_wildcard client tfeConfig wildcard fuel s org options response h).2, ?_⟩
  · have hc := runWorkspaceCmd_consistent client wildcard tfeConfig fuel s
    have hnf := runWorkspaceCmd_noFatal client tfeConfig wildcard hok fuel s
    generalize (runWorkspaceCmd client tfeConfig wildcard fuel s).outcome = o at hc hnf
    generalize (runWorkspaceCmd client tfeConfig wildcard fuel s).trace = t at hc
    cases hc with
    | running o t _ _ hbal => exact hbal
    | listFailed pre org options e _ _ => exact absurd rfl (hnf e)
    | createFailed pre options e _ _ => exact absurd rfl (hnf e)
  · intro first s1 hfirst hN hfuel
    exact runWorkspaceCmd_succeeds client tfeConfig wildcard hok fuel s s1 first hfirst
      hN hfuel

/-- C2 at work: in the two-page scenario the dispatch returns after listing the
pages 1 and 2, which return `ws-1` and `ws-2`, and creates a run for each. -/
theorem C2_creations_match_listings_witness :
    createRequests (runWorkspaceCmd scenarioClient ⟨"", "cbh"⟩ "baseline-*" 2 ()).trace
      = (listedWorkspaces (runWorkspaceCmd scenarioClient ⟨"", "cbh"⟩ "baseline-*" 2 ()).trace).map
          Workspace.ID ∧
    (listedWorkspaces (runWorkspaceCmd scenarioClient ⟨"", "cbh"⟩ "baseline-*" 2 ()).trace).map
      Workspace.ID = ["ws-1", "ws-2"] ∧
    ((runWorkspaceCmd scenarioClient ⟨"", "cbh"⟩ "baseline-*" 2 ()).outcome = Outcome.returned ∧
      listRequests (runWorkspaceCmd scenarioClient ⟨"", "cbh"⟩ "baseline-*" 2 ()).trace
        = ("cbh", none) :: (pagesUpTo 2).map (pageRequest "cbh" "baseline-*")) :=
  ⟨(C2_creations_match_listings scenarioClient ⟨"", "cbh"⟩ "baseline-*" 2 ()
      scenarioClient_succeeds).2.1, by decide,
   (C2_creations_match_listings scenarioClient ⟨"", "cbh"⟩ "baseline-*" 2 ()
      scenarioClient_succeeds).2.2.2 ⟨2, [⟨"ws-1", "baseline-a"⟩]⟩ () rfl (by decide) (by decide)⟩

theorem remoteCalls_failure_last (pre : List Event) (ev : Event) (e : Error)
    (hev : ev.isRemoteCall = true) :
    (remoteCalls (pre ++ [ev, Event.log e])).getLast? = some ev := by
  have h : remoteCalls (pre ++ [ev, Event.log e]) = remoteCalls pre ++ [ev] := by
    have h2 : (Event.log e).isRemoteCall = false := rfl
    simp only [remoteCalls, List.filter_append, List.filter_cons, hev, h2, if_true,
      List.filter_nil]
    simp
  rw [h, List.getLast?_append]
  rfl

/-- A failed call of a consistent execution is its last call: the execution is
fatal with the error of that call, and only the log line of the error follows. -/
theorem Consistent.failure_last {o : Outcome} {t : List Event} (hc : Consistent o t)
    (ev : Event) (e : Error) (hev : ev ∈ t) (hf : ev.failure = some e) :
    o = Outcome.fatal e ∧ ∃ pre, t = pre ++ [ev, Event.log e] ∧ NoFailure pre ∧
      ((∃ org options, ev = Event.list org options (Result.err e)) → Balanced pre) := by
  cases hc with
  | running o t _ hnf _ =>
    rw [hnf ev hev] at hf
    cases hf
  | listFailed pre org options e0 hnf hbal =>
    rcases List.mem_append.mp hev with h | h
    · rw [hnf ev h] at hf; cases hf
    · simp only [List.mem_cons, List.mem_singleton, List.not_mem_nil, or_false] at h
      rcases h with h | h
      · subst h
        simp only [Event.failure, Option.some.injEq] at hf
        subst hf
        exact ⟨rfl, pre, rfl, hnf, fun _ => hbal⟩
      · subst h; cases hf
  | createFailed pre options e0 hnf hpre =>
    rcases List.mem_append.mp hev with h | h
    · rw [hnf ev h] at hf; cases hf
    · simp only [List.mem_cons, List.mem_singleton, List.not_mem_nil, or_false] at h
      rcases h with h | h
      · subst h
        simp only [Event.failure, Option.some.injEq] at hf
        subst hf
        refine ⟨rfl, pre, rfl, hnf, ?_⟩
        rintro ⟨org, o, h⟩
        cases h
      · subst h; cases hf

/-- C3: if a listing call of the dispatch fails (the one for a page `k`, or the
first one), the dispatch is ended by that error and the failed listing is its
last remote call: the trace is what came before it, in which nothing failed,
then the failed listing and the log line of the error.  No listing and no run
creation follows, and the run creations made are exactly those for the
workspaces of the pages listed before. -/
theorem C3_listing_failure_aborts {σ : Type} (client : Client σ) (tfeConfig : config)
    (wildcard : String) (fuel : Nat) (s : σ) (org : String)
    (options : Option WorkspaceListOptions) (e : Error)
    (h : Event.list org options (Result.err e)
      ∈ (runWorkspaceCmd client tfeConfig wildcard fuel s).trace) :
    (runWorkspaceCmd client tfeConfig wildcard fuel s).outcome = Outcome.fatal e ∧
    (remoteCalls (runWorkspaceCmd client tfeConfig wildcard fuel s).trace).getLast?
      = some (Event.list org options (Result.err e)) ∧
    ∃ pre, (runWorkspaceCmd client tfeConfig wildcard fuel s).trace
        = pre ++ [Event.list org options (Result.err e), Event.log e] ∧
      NoFailure pre ∧
      listRequests (runWorkspaceCmd client tfeConfig wildcard fuel s).trace
        = listRequests pre ++ [(org, options)] ∧
      createRequests (runWorkspaceCmd client tfeConfig wildcard fuel s).trace
        = (listedWorkspaces pre).map Workspace.ID := by
  obtain ⟨ho, pre, ht, hnf, hbal⟩ :=
    (runWorkspaceCmd_consistent client wildcard tfeConfig fuel s).failure_last _ e h rfl
  refine ⟨ho, ?_, pre, ht, hnf, ?_, ?_⟩
  · rw [ht]; exact remoteCalls_failure_last pre _ e rfl
  · rw [ht, listRequests_append]; rfl
  · rw [ht, createRequests_append, ← hbal ⟨org, options, rfl⟩]
    exact List.append_nil _

/-- C3 at work: the listing of page 2 fails; one run was created, for `ws-1`. -/
theorem C3_listing_failure_aborts_witness :
    (runWorkspaceCmd listFailsClient ⟨"", "cbh"⟩ "baseline-*" 3 ()).outcome
      = Outcome.fatal "listing failed" ∧
    createRequests (runWorkspaceCmd listFailsClient ⟨"", "cbh"⟩ "baseline-*" 3 ()).trace
      = ["ws-1"] :=
  ⟨(C3_listing_failure_aborts listFailsClient ⟨"", "cbh"⟩ "baseline-*" 3 () "cbh"
      (some ⟨⟨2⟩, "baseline-*"⟩) "listing failed" (by decide)).1, by decide⟩

/-- C4: if a run-creation call of the dispatch fails, the dispatch is ended by
that error and the failed call is its last remote call: the trace is what came
before it, in which nothing failed, then the failed call and the log line of
the error.  No run creation, no retry and no listing follows. -/
theorem C4_creation_failure_aborts {σ : Type} (client : Client σ) (tfeConfig : config)
    (wildcard : String) (fuel : Nat) (s : σ) (options : RunCreateOptions) (e : Error)
    (h : Event.create options (Result.err e)
      ∈ (runWorkspaceCmd client tfeConfig wildcard fuel s).trace) :
    (runWorkspaceCmd client tfeConfig wildcard fuel s).outcome = Outcome.fatal e ∧
    (remoteCalls (runWorkspaceCmd client tfeConfig wildcard fuel s).trace).getLast?
      = some (Event.create options (Result.err e)) ∧
    ∃ pre, (runWorkspaceCmd client tfeConfig wildcard fuel s).trace
        = pre ++ [Event.create options (Result.err e), Event.log e] ∧
      NoFailure pre ∧
      listRequests (runWorkspaceCmd client tfeConfig wildcard fuel s).trace
        = listRequests pre ∧
      createRequests (runWorkspaceCmd client tfeConfig wildcard fuel s).trace
        = createRequests pre ++ [options.Workspace.ID] := by
  obtain ⟨ho, pre, ht, hnf, _⟩ :=
    (runWorkspaceCmd_consistent client wildcard tfeConfig fuel s).failure_last _ e h rfl
  refine ⟨ho, ?_, pre, ht, hnf, ?_, ?_⟩
  · rw [ht]; exact remoteCalls_failure_last pre _ e rfl
  · rw [ht, listRequests_append]; exact List.append_nil _
  · rw [ht, createRequests_append]; rfl

/-- C4 at work: the run for `ws-2` is refused; `ws-3` and page 2 are not
reached. -/
theorem C4_creation_failure_aborts_witness :
    (runWorkspaceCmd createFailsClient ⟨"", "cbh"⟩ "baseline-*" 2 ()).outcome
      = Outcome.fatal "run refused" ∧
    createRequests (runWorkspaceCmd createFailsClient ⟨"", "cbh"⟩ "baseline-*" 2 ()).trace
      = ["ws-1", "ws-2"] ∧
    pageNumbers (runWorkspaceCmd createFailsClient ⟨"", "cbh"⟩ "baseline-*" 2 ()).trace = [1] :=
  ⟨(C4_creation_failure_aborts createFailsClient ⟨"", "cbh"⟩ "baseline-*" 2 ()
      ⟨⟨"ws-2", ""⟩⟩ "run refused" (by decide)).1, by decide, by decide⟩

/-- C5, as stated, fails: in the two-page scenario the first listing request of
the dispatch carries no options, hence no wildcard filter. -/
theorem C5_wildcard_filter_counterexample :
    ("cbh", none) ∈ listRequests
      (runWorkspaceCmd scenarioClient ⟨"", "cbh"⟩ "baseline-*" 2 ()).trace ∧
    ¬ ∀ r ∈ listRequests (runWorkspaceCmd scenarioClient ⟨"", "cbh"⟩ "baseline-*" 2 ()).trace,
      r.2.map WorkspaceListOptions.WildcardName = some "baseline-*" := by
  refine ⟨by decide, fun h => ?_⟩
  have := h ("cbh", none) (by decide)
  cases this

/-- C5, amended: the first listing request of the dispatch, the one that reads
the page count, carries no options and so no filter; every listing request
after it is a per-page request whose wildcard-name filter is the pattern. -/
theorem C5_wildcard_filter {σ : Type} (client : Client σ) (tfeConfig : config)
    (wildcard : String) (fuel : Nat) (s : σ) :
    ∃ rest, listRequests (runWorkspaceCmd client tfeConfig wildcard fuel s).trace
        = (tfeConfig.TFE_ORG, none) :: rest ∧
      ∀ r ∈ rest, ∃ options : WorkspaceListOptions,
        r.2 = some options ∧ options.WildcardName = wildcard := by
  obtain ⟨rest, hl, hrest⟩ := runWorkspaceCmd_listRequests client tfeConfig wildcard fuel s
  refine ⟨rest, hl, fun r hr => ?_⟩
  obtain ⟨j, hj⟩ := hrest r hr
  exact ⟨⟨⟨j⟩, wildcard⟩, by rw [hj]; rfl, rfl⟩

/-- C8: the end-to-end scenario.  With organization `cbh` and pattern
`baseline-*`, against the two-page service (`ws-1`/`baseline-a`, then
`ws-2`/`baseline-b`, two pages reported on every response, every run creation
succeeding), the dispatch returns once two iterations are allowed, having
issued exactly two run-creation calls, for `ws-1` then `ws-2`, and written
exactly two log lines, naming `baseline-a` then `baseline-b`. -/
theorem C8_end_to_end (token : String) (extra : Nat) :
    (runWorkspaceCmd scenarioClient ⟨token, "cbh"⟩ "baseline-*" (extra + 2) ()).outcome
      = Outcome.returned ∧
    createRequests (runWorkspaceCmd scenarioClient ⟨token, "cbh"⟩ "baseline-*" (extra + 2) ()).trace
      = ["ws-1", "ws-2"] ∧
    logLines (runWorkspaceCmd scenarioClient ⟨token, "cbh"⟩ "baseline-*" (extra + 2) ()).trace
      = ["Workspace: baseline-a", "Workspace: baseline-b"] ∧
    (runWorkspaceCmd scenarioClient ⟨token, "cbh"⟩ "baseline-*" (extra + 2) ()).trace
      = [Event.list "cbh" none (Result.ok ⟨2, [⟨"ws-1", "baseline-a"⟩]⟩),
         Event.list "cbh" (some ⟨⟨1⟩, "baseline-*"⟩) (Result.ok ⟨2, [⟨"ws-1", "baseline-a"⟩]⟩),
         Event.log "Workspace: baseline-a",
         Event.create ⟨⟨"ws-1", ""⟩⟩ (Result.ok ()),
         Event.list "cbh" (some ⟨⟨2⟩, "baseline-*"⟩) (Result.ok ⟨2, [⟨"ws-2", "baseline-b"⟩]⟩),
         Event.log "Workspace: baseline-b",
         Event.create ⟨⟨"ws-2", ""⟩⟩ (Result.ok ())] := by
  have h3 : pageLoop scenarioClient "cbh" "baseline-*" 2 extra 3 ()
      = ⟨Outcome.returned, (), []⟩ := pageLoop_exit _ _ _ _ _ _ _ (by decide)
  have h2 : pageLoop scenarioClient "cbh" "baseline-*" 2 (extra + 1) 2 ()
      = ⟨Outcome.returned, (),
          [Event.list "cbh" (some ⟨⟨2⟩, "baseline-*"⟩) (Result.ok ⟨2, [⟨"ws-2", "baseline-b"⟩]⟩),
           Event.log "Workspace: baseline-b",
           Event.create ⟨⟨"ws-2", ""⟩⟩ (Result.ok ())]⟩ := by
    rw [pageLoop_next scenarioClient "cbh" "baseline-*" 2 extra 2 () ()
      ⟨2, [⟨"ws-2", "baseline-b"⟩]⟩ (by decide) rfl rfl]
    have hw : wrapInt (2 + 1) = 3 := by decide
    have hs : (itemLoop scenarioClient
      (WorkspaceList.mk 2 [⟨"ws-2", "baseline-b"⟩]).Items ()).state = () := rfl
    rw [hw, hs, h3]
    rfl
  have h1 : pageLoop scenarioClient "cbh" "baseline-*" 2 (extra + 2) 1 ()
      = ⟨Outcome.returned, (),
          [Event.list "cbh" (some ⟨⟨1⟩, "baseline-*"⟩) (Result.ok ⟨2, [⟨"ws-1", "baseline-a"⟩]⟩),
           Event.log "Workspace: baseline-a",
           Event.create ⟨⟨"ws-1", ""⟩⟩ (Result.ok ()),
           Event.list "cbh" (some ⟨⟨2⟩, "baseline-*"⟩) (Result.ok ⟨2, [⟨"ws-2", "baseline-b"⟩]⟩),
           Event.log "Workspace: baseline-b",
           Event.create ⟨⟨"ws-2", ""⟩⟩ (Result.ok ())]⟩ := by
    rw [pageLoop_next scenarioClient "cbh" "baseline-*" 2 (extra + 1) 1 () ()
      ⟨2, [⟨"ws-1", "baseline-a"⟩]⟩ (by decide) rfl rfl]
    have hw : wrapInt (1 + 1) = 2 := by decide
    have hs : (itemLoop scenarioClient
      (WorkspaceList.mk 2 [⟨"ws-1", "baseline-a"⟩]).Items ()).state = () := rfl
    rw [hw, hs, h2]
    rfl
  rw [runWorkspaceCmd_ok scenarioClient ⟨token, "cbh"⟩ "baseline-*" (extra + 2) () ()
    ⟨2, [⟨"ws-1", "baseline-a"⟩]⟩ rfl]
  show (pageLoop scenarioClient "cbh" "baseline-*" 2 (extra + 2) 1 ()).outcome = _ ∧ _
  rw [h1]
  exact ⟨rfl, rfl, rfl, rfl⟩

/-! ## The command line -/

section Cli

variable {σ : Type} (client : Client σ) (cfg : config)

theorem buildCli_rootCmd :
    ∃ c, buildCli client cfg = some c ∧ c.rootCmd = some (builtRoot client cfg) ∧
      c.tfeClient = client ∧ c.tfeConfig = cfg :=
  ⟨_, rfl, rfl, rfl, rfl⟩

theorem buildCli_execute :
    ∃ c, buildCli client cfg = some c ∧ ∀ inv fuel s,
      c.execute inv fuel s = (builtRoot client cfg).Execute inv fuel s :=
  ⟨_, rfl, fun _ _ _ => rfl⟩

theorem name_baseline : (baselineCmd client cfg).Name = "baseline" := rfl

theorem name_inception : (inceptionCmd client cfg).Name = "inception" := rfl

theorem name_custom : (customCmd client cfg).Name = "custom" := rfl

theorem name_help : (helpCmd : Command σ).Name = "help" := rfl

/-- The command a word selects on the root the builder assembles. -/
theorem find_cases (word : String) :
    (word = "baseline" ∧
      (builtRoot client cfg).Find (some word) = Except.ok (baselineCmd client cfg)) ∨
    (word = "inception" ∧
      (builtRoot client cfg).Find (some word) = Except.ok (inceptionCmd client cfg)) ∨
    (word = "custom" ∧
      (builtRoot client cfg).Find (some word) = Except.ok (customCmd client cfg)) ∨
    (word = "help" ∧ (builtRoot client cfg).Find (some word) = Except.ok helpCmd) ∨
    (builtRoot client cfg).Find (some word) = Except.error ("unknown command " ++ word) := by
  have hc : (builtRoot client cfg).commands
      = [baselineCmd client cfg, inceptionCmd client cfg, customCmd client cfg] := rfl
  simp only [Command.Find, hc, List.isEmpty_cons, Bool.false_eq_true, if_false,
    List.cons_append, List.nil_append, List.find?, name_baseline, name_inception, name_custom,
    name_help]
  by_cases h1 : word = "baseline"
  · subst h1; exact Or.inl ⟨rfl, rfl⟩
  by_cases h2 : word = "inception"
  · subst h2; exact Or.inr (Or.inl ⟨rfl, rfl⟩)
  by_cases h3 : word = "custom"
  · subst h3; exact Or.inr (Or.inr (Or.inl ⟨rfl, rfl⟩))
  by_cases h4 : word = "help"
  · subst h4; exact Or.inr (Or.inr (Or.inr (Or.inl ⟨rfl, rfl⟩)))
  · refine Or.inr (Or.inr (Or.inr (Or.inr ?_)))
    simp [Ne.symm h1, Ne.symm h2, Ne.symm h3, Ne.symm h4]

end Cli

/-- Every execution of a command line either reaches no `Run` and leaves an
empty trace, or is the `Run` of the command found, reached after its flags were
parsed and its required flags found set. -/
theorem Execute_cases {σ : Type} (root : Command σ) (inv : Invocation) (fuel : Nat) (s : σ) :
    (root.Execute inv fuel s).exec = ⟨Outcome.returned, s, []⟩ ∨
    ∃ cmd changed run, root.Find inv.command = Except.ok cmd ∧
      parseFlags (cmd.flags ++ [helpFlag]) inv.flagArgs = Except.ok changed ∧
      cmd.Run = some run ∧
      validateRequiredFlags (cmd.flags ++ [helpFlag]) changed = Except.ok () ∧
      root.Execute inv fuel s
        = ⟨none, run (flagValue (cmd.flags ++ [helpFlag]) changed) fuel s⟩ := by
  unfold Command.Execute
  cases hf : root.Find inv.command with
  | error e => exact Or.inl rfl
  | ok cmd =>
    simp only
    cases hp : parseFlags (cmd.flags ++ [helpFlag]) inv.flagArgs with
    | error e => exact Or.inl rfl
    | ok changed =>
      simp only
      by_cases hh : flagValue (cmd.flags ++ [helpFlag]) changed "help" ∈ trueSpellings
      · rw [if_pos hh]; exact Or.inl rfl
      · rw [if_neg hh]
        cases hr : cmd.Run with
        | none => exact Or.inl rfl
        | some run =>
          simp only
          cases hv : validateRequiredFlags (cmd.flags ++ [helpFlag]) changed with
          | error e => exact Or.inl rfl
          | ok u => exact Or.inr ⟨cmd, changed, run, rfl, hp, hr, hv, rfl⟩

/-- The names of the flags a successful parse reports as set are names of
flags that an occurrence on the command line gave a value to. -/
theorem parseFlags_names (defs : List Flag) (args : List FlagArg)
    (changed : List (String × String)) (h : parseFlags defs args = Except.ok changed) :
    ∀ n ∈ changed.map Prod.fst, ∃ a ∈ args, ∃ fl v,
      lookupFlag defs a = some fl ∧ fl.Name = n ∧ assignedValue fl a = Except.ok v := by
  induction args generalizing changed with
  | nil =>
    simp only [parseFlags, Except.ok.injEq] at h
    subst h
    intro n hn; cases hn
  | cons a rest ih =>
    rw [parseFlags] at h
    cases hl : lookupFlag defs a with
    | none => rw [hl] at h; cases h
    | some fl =>
      rw [hl] at h
      simp only at h
      cases ha : assignedValue fl a with
      | error e => rw [ha] at h; cases h
      | ok v =>
        rw [ha] at h
        simp only at h
        cases hr : parseFlags defs rest with
        | error e => rw [hr] at h; cases h
        | ok ch =>
          rw [hr] at h
          simp only [Except.ok.injEq] at h
          subst h
          intro n hn
          rw [List.map_cons, List.mem_cons] at hn
          rcases hn with hn | hn
          · exact ⟨a, List.mem_cons_self _ _, fl, v, hl, hn.symm, ha⟩
          · obtain ⟨a', ha', fl', v', h1, h2, h3⟩ := ih ch hr n hn
            exact ⟨a', List.mem_cons_of_mem _ ha', fl', v', h1, h2, h3⟩

/-- On the `custom` command, an occurrence that gives `filter` a value is
`--filter v` or `-b v`. -/
theorem custom_sets_filter (a : FlagArg) (fl : Flag) (v : String)
    (hl : lookupFlag ([filterFlag] ++ [helpFlag]) a = some fl) (hn : fl.Name = "filter")
    (ha : assignedValue fl a = Except.ok v) :
    a = FlagArg.long "filter" v ∨ a = FlagArg.short "b" v := by
  have hfl : fl = filterFlag := by
    cases a <;>
    · simp only [lookupFlag, List.cons_append, List.nil_append, List.find?] at hl
      split at hl
      · exact (Option.some.inj hl).symm
      · split at hl
        · rw [← Option.some.inj hl] at hn; exact absurd hn (by decide)
        · cases hl
  subst hfl
  cases a with
  | long name w =>
    left
    simp only [lookupFlag, List.cons_append, List.nil_append, List.find?] at hl
    by_cases h : name = "filter"
    · subst h
      simp only [assignedValue, filterFlag] at ha
      rw [if_neg (fun hk => by cases hk.1)] at ha
      rw [Except.ok.inj ha]
    · have : decide (filterFlag.Name = name) = false := by
        simp [filterFlag, Ne.symm h]
      rw [this] at hl
      simp only at hl
      split at hl
      · cases hl
      · cases hl
  | short sh w =>
    right
    simp only [lookupFlag, List.cons_append, List.nil_append, List.find?] at hl
    by_cases h : sh = "b"
    · subst h
      simp only [assignedValue, filterFlag] at ha
      rw [if_neg (fun hk => by cases hk.1)] at ha
      rw [Except.ok.inj ha]
    · have : decide (filterFlag.Shorthand = sh) = false := by
        simp [filterFlag, Ne.symm h]
      rw [this] at hl
      simp only at hl
      split at hl
      · cases hl
      · cases hl
  | longBare name =>
    simp only [assignedValue, filterFlag] at ha
    rw [if_neg (by decide)] at ha
    cases ha
  | shortBare sh =>
    simp only [assignedValue, filterFlag] at ha
    rw [if_neg (by decide)] at ha
    cases ha

/-- On the `custom` command the check of the required flags passes only when
`filter` was set. -/
theorem custom_required (changed : List (String × String))
    (h : validateRequiredFlags ([filterFlag] ++ [helpFlag]) changed = Except.ok ()) :
    "filter" ∈ changed.map Prod.fst := by
  by_contra hn
  have hm : ([filterFlag] ++ [helpFlag]).filter
      (fun fl => fl.Required ∧ fl.Name ∉ changed.map Prod.fst) = [filterFlag] := by
    have h1 : decide (filterFlag.Required = true ∧ filterFlag.Name ∉ changed.map Prod.fst)
        = true := by
      simp only [decide_eq_true_eq]
      exact ⟨rfl, hn⟩
    have h2 : decide (helpFlag.Required = true ∧ helpFlag.Name ∉ changed.map Prod.fst)
        = false := by
      simp only [decide_eq_false_iff_not, not_and]
      intro hr; cases hr
    simp only [List.cons_append, List.nil_append, List.filter_cons, h1, h2, if_true,
      List.filter_nil, Bool.false_eq_true, if_false]
  rw [validateRequiredFlags, hm] at h
  cases h

theorem pattern_ends_with_star (v : String) :
    v ++ "*" ≠ "" ∧ (v ++ "*").data.getLast? = some '*' := by
  have h : (v ++ "*").data.getLast? = some '*' := by
    rw [String.data_append]
    simp
  refine ⟨fun h0 => ?_, h⟩
  rw [h0] at h
  cases h

section Cli

variable {σ : Type} (client : Client σ) (cfg : config)

/-- Every execution of the command line either makes no call at all or is the
dispatch for a pattern that is not empty and ends with `*`. -/
theorem execute_dispatches (inv : Invocation) (fuel : Nat) (s : σ) :
    ((builtRoot client cfg).Execute inv fuel s).exec = ⟨Outcome.returned, s, []⟩ ∨
    ∃ p : String, p ≠ "" ∧ p.data.getLast? = some '*' ∧
      ((builtRoot client cfg).Execute inv fuel s).exec = runWorkspaceCmd client cfg p fuel s := by
  rcases Execute_cases (builtRoot client cfg) inv fuel s with h | ⟨cmd, changed, run, hf, _, hr, _, he⟩
  · exact Or.inl h
  · obtain ⟨command, args⟩ := inv
    cases command with
    | none =>
      simp only [Command.Find, Except.ok.injEq] at hf
      subst hf
      cases hr
    | some word =>
      simp only at hf
      rcases find_cases client cfg word with ⟨_, h⟩ | ⟨_, h⟩ | ⟨_, h⟩ | ⟨_, h⟩ | h
      · rw [h] at hf
        cases hf
        simp only [baselineCmd, Command.Run, Option.some.injEq] at hr
        subst hr
        exact Or.inr ⟨"baseline-*", by decide, by decide, by rw [he]⟩
      · rw [h] at hf
        cases hf
        simp only [inceptionCmd, Command.Run, Option.some.injEq] at hr
        subst hr
        exact Or.inr ⟨"wl-inception-*", by decide, by decide, by rw [he]⟩
      · rw [h] at hf
        cases hf
        simp only [customCmd, Command.Run, Option.some.injEq] at hr
        subst hr
        exact Or.inr ⟨_, (pattern_ends_with_star _).1, (pattern_ends_with_star _).2,
          by rw [he]⟩
      · rw [h] at hf
        cases hf
        simp only [helpCmd, Command.Run, Option.some.injEq] at hr
        subst hr
        exact Or.inl (by rw [he])
      · rw [h] at hf
        cases hf

/-- Without an occurrence of `--filter v` or `-b v`, `custom` reaches no `Run`. -/
theorem execute_custom_no_filter (args : List FlagArg) (fuel : Nat) (s : σ)
    (h : ∀ v, FlagArg.long "filter" v ∉ args ∧ FlagArg.short "b" v ∉ args) :
    ((builtRoot client cfg).Execute ⟨some "custom", args⟩ fuel s).exec
      = ⟨Outcome.returned, s, []⟩ := by
  rcases Execute_cases (builtRoot client cfg) ⟨some "custom", args⟩ fuel s
    with h0 | ⟨cmd, changed, run, hf, hp, _, hv, _⟩
  · exact h0
  · exfalso
    rcases find_cases client cfg "custom" with ⟨h1, _⟩ | ⟨h1, _⟩ | ⟨_, hc⟩ | ⟨h1, _⟩ | hc
    · exact absurd h1 (by decide)
    · exact absurd h1 (by decide)
    · simp only at hf
      rw [hc] at hf
      cases hf
      have hfl : (customCmd client cfg).flags = [filterFlag] := rfl
      rw [hfl] at hp hv
      obtain ⟨a, ha, fl, v, hl, hn, hav⟩ :=
        parseFlags_names _ _ _ hp "filter" (custom_required changed hv)
      rcases custom_sets_filter a fl v hl hn hav with rfl | rfl
      · exact (h v).1 ha
      · exact (h v).2 ha
    · exact absurd h1 (by decide)
    · simp only at hf
      rw [hc] at hf
      cases hf

end Cli

section CliRuns

variable {σ : Type} (client : Client σ) (cfg : config)

theorem execute_custom_filter (a : FlagArg) (v : String)
    (ha : a = FlagArg.long "filter" v ∨ a = FlagArg.short "b" v) (fuel : Nat) (s : σ) :
    (builtRoot client cfg).Execute ⟨some "custom", [a]⟩ fuel s =
      ⟨none, runWorkspaceCmd client cfg (v ++ "*") fuel s⟩ := by
  rcases ha with rfl | rfl <;> rfl

/-- Without `filter` and without `help`, parsing the flags of `custom` fails at
the first occurrence. -/
theorem custom_parse_fails (a : FlagArg) (rest : List FlagArg)
    (h : ∀ v, a ≠ FlagArg.long "filter" v ∧ a ≠ FlagArg.short "b" v)
    (hh : a ≠ FlagArg.longBare "help" ∧ a ≠ FlagArg.shortBare "h" ∧
      ∀ v, a ≠ FlagArg.long "help" v ∧ a ≠ FlagArg.short "h" v) :
    ∃ e, parseFlags ([filterFlag] ++ [helpFlag]) (a :: rest) = Except.error e := by
  cases a with
  | long name v =>
    have h1 : name ≠ "filter" := fun hn => (h v).1 (by rw [hn])
    have h2 : name ≠ "help" := fun hn => (hh.2.2 v).1 (by rw [hn])
    refine ⟨"unknown flag", ?_⟩
    simp [parseFlags, lookupFlag, List.find?, filterFlag, helpFlag, Ne.symm h1, Ne.symm h2]
  | short sh v =>
    have h1 : sh ≠ "b" := fun hn => (h v).2 (by rw [hn])
    have h2 : sh ≠ "h" := fun hn => (hh.2.2 v).2 (by rw [hn])
    refine ⟨"unknown flag", ?_⟩
    simp [parseFlags, lookupFlag, List.find?, filterFlag, helpFlag, Ne.symm h1, Ne.symm h2]
  | longBare name =>
    have h2 : name ≠ "help" := fun hn => hh.1 (by rw [hn])
    by_cases h1 : name = "filter"
    · subst h1
      exact ⟨"flag needs an argument", rfl⟩
    · refine ⟨"unknown flag", ?_⟩
      simp [parseFlags, lookupFlag, List.find?, filterFlag, helpFlag, Ne.symm h1, Ne.symm h2]
  | shortBare sh =>
    have h2 : sh ≠ "h" := fun hn => hh.2.1 (by rw [hn])
    by_cases h1 : sh = "b"
    · subst h1
      exact ⟨"flag needs an argument", rfl⟩
    · refine ⟨"unknown flag", ?_⟩
      simp [parseFlags, lookupFlag, List.find?, filterFlag, helpFlag, Ne.symm h1, Ne.symm h2]

theorem execute_custom_error (args : List FlagArg) (fuel : Nat) (s : σ)
    (h : ∀ v, FlagArg.long "filter" v ∉ args ∧ FlagArg.short "b" v ∉ args)
    (hh : FlagArg.longBare "help" ∉ args ∧ FlagArg.shortBare "h" ∉ args ∧
      ∀ v, FlagArg.long "help" v ∉ args ∧ FlagArg.short "h" v ∉ args) :
    ∃ e, ((builtRoot client cfg).Execute ⟨some "custom", args⟩ fuel s).err = some e ∧
      (args = [] → e = "required flag(s) \"filter\" not set") := by
  cases args with
  | nil => exact ⟨_, rfl, fun _ => rfl⟩
  | cons a rest =>
    obtain ⟨e, he⟩ := custom_parse_fails a rest
      (fun v => ⟨fun ha => (h v).1 (ha ▸ List.mem_cons_self _ _),
        fun ha => (h v).2 (ha ▸ List.mem_cons_self _ _)⟩)
      ⟨fun ha => hh.1 (ha ▸ List.mem_cons_self _ _),
        fun ha => hh.2.1 (ha ▸ List.mem_cons_self _ _),
        fun v => ⟨fun ha => (hh.2.2 v).1 (ha ▸ List.mem_cons_self _ _),
          fun ha => (hh.2.2 v).2 (ha ▸ List.mem_cons_self _ _)⟩⟩
    refine ⟨e, ?_, fun hnil => by cases hnil⟩
    have hf : (builtRoot client cfg).Find (some "custom") = Except.ok (customCmd client cfg) :=
      rfl
    have hfl : (customCmd client cfg).flags = [filterFlag] := rfl
    simp only [Command.Execute, hf, hfl, he]

end CliRuns

/-- C6: the fixed mapping from subcommand to pattern.  On the builder `main`
assembles, `baseline` runs the dispatch with `baseline-*`, `inception` with
`wl-inception-*`, and `custom` with `--filter v` or `-b v` with `v ++ "*"`, for
every string `v`; and whatever the command line, an execution that reaches the
dispatch does so with a pattern that is not empty and ends with `*`. -/
theorem C6_subcommand_patterns {σ : Type} (client : Client σ) (cfg : config) :
    ∃ c, buildCli client cfg = some c ∧
      (∀ fuel s, c.execute ⟨some "baseline", []⟩ fuel s
        = ⟨none, runWorkspaceCmd client cfg "baseline-*" fuel s⟩) ∧
      (∀ fuel s, c.execute ⟨some "inception", []⟩ fuel s
        = ⟨none, runWorkspaceCmd client cfg "wl-inception-*" fuel s⟩) ∧
      (∀ v fuel s, c.execute ⟨some "custom", [FlagArg.long "filter" v]⟩ fuel s
        = ⟨none, runWorkspaceCmd client cfg (v ++ "*") fuel s⟩) ∧
      (∀ v fuel s, c.execute ⟨some "custom", [FlagArg.short "b" v]⟩ fuel s
        = ⟨none, runWorkspaceCmd client cfg (v ++ "*") fuel s⟩) ∧
      (∀ inv fuel s, (c.execute inv fuel s).exec = ⟨Outcome.returned, s, []⟩ ∨
        ∃ p : String, p ≠ "" ∧ p.data.getLast? = some '*' ∧
          (c.execute inv fuel s).exec = runWorkspaceCmd client cfg p fuel s) := by
  obtain ⟨c, hc, hex⟩ := buildCli_execute client cfg
  refine ⟨c, hc, ?_, ?_, ?_, ?_, ?_⟩
  · intro fuel s
    rw [hex]; rfl
  · intro fuel s
    rw [hex]; rfl
  · intro v fuel s
    rw [hex, execute_custom_filter client cfg _ v (Or.inl rfl)]
  · intro v fuel s
    rw [hex, execute_custom_filter client cfg _ v (Or.inr rfl)]
  · intro inv fuel s
    rw [hex]
    exact execute_dispatches client cfg inv fuel s

/-- C7, as stated, fails: `custom --help` selects `custom` and does not set
`filter`, yet `execute` returns no error: the help text is printed before the
required flags are checked.  No call is made. -/
theorem C7_custom_requires_filter_counterexample :
    (∀ v, FlagArg.long "filter" v ∉ [FlagArg.longBare "help"] ∧
      FlagArg.short "b" v ∉ [FlagArg.longBare "help"]) ∧
    ∃ c, buildCli scenarioClient ⟨"", "cbh"⟩ = some c ∧
      (c.execute ⟨some "custom", [FlagArg.longBare "help"]⟩ 2 ()).err = none ∧
      (c.execute ⟨some "custom", [FlagArg.longBare "help"]⟩ 2 ()).exec.trace = [] :=
  ⟨fun v => ⟨by simp, by simp⟩, _, rfl, rfl, rfl⟩

/-- C7, amended: `custom` without its `filter` flag makes no remote call.  For
every command line that selects `custom` and has no occurrence of `--filter v`
or `-b v`, `execute` reaches no `Run` and leaves an empty trace, and the whole
of `main` makes no listing request and no run-creation request; and unless the
command line asks for help (`--help`, `-h`), `execute` returns an error, which
for a command line without flags is that of the missing required flag. -/
theorem C7_custom_requires_filter {σ : Type} (client : Client σ) (cfg : config)
    (args : List FlagArg) (fuel : Nat) (s : σ)
    (h : ∀ v, FlagArg.long "filter" v ∉ args ∧ FlagArg.short "b" v ∉ args) :
    (∃ c, buildCli client cfg = some c ∧
      (c.execute ⟨some "custom", args⟩ fuel s).exec = ⟨Outcome.returned, s, []⟩ ∧
      ((FlagArg.longBare "help" ∉ args ∧ FlagArg.shortBare "h" ∉ args ∧
          ∀ v, FlagArg.long "help" v ∉ args ∧ FlagArg.short "h" v ∉ args) →
        ∃ e, (c.execute ⟨some "custom", args⟩ fuel s).err = some e ∧
          (args = [] → e = "required flag(s) \"filter\" not set"))) ∧
    ∀ (environ : String → Option String) (NewClient : TfeConfig → Result (Client σ)),
      remoteCalls (main environ NewClient ⟨some "custom", args⟩ fuel s).trace = [] := by
  constructor
  · obtain ⟨c, hc, hex⟩ := buildCli_execute client cfg
    refine ⟨c, hc, ?_, fun hh => ?_⟩
    · rw [hex]; exact execute_custom_no_filter client cfg args fuel s h
    · rw [hex]; exact execute_custom_error client cfg args fuel s h hh
  · intro environ NewClient
    simp only [main, envParse]
    cases hn : NewClient ⟨(environ "TFE_TOKEN").getD "", true⟩ with
    | err e => rfl
    | ok cl =>
      obtain ⟨c, hc, hex⟩ := buildCli_execute cl
        ⟨(environ "TFE_TOKEN").getD "", (environ "TFE_ORG").getD "cbh"⟩
      simp only [hc, hex, execute_custom_no_filter cl _ args fuel s h]
      rfl

/-- C7, amended, at work: `custom` with no flag at all returns the error of the
missing required flag and leaves an empty trace. -/
theorem C7_custom_requires_filter_witness :
    ∃ c, buildCli scenarioClient ⟨"", "cbh"⟩ = some c ∧
      (c.execute ⟨some "custom", []⟩ 2 ()).exec = ⟨Outcome.returned, (), []⟩ ∧
      (c.execute ⟨some "custom", []⟩ 2 ()).err = some "required flag(s) \"filter\" not set" := by
  obtain ⟨c, hc, hexec, herr⟩ := (C7_custom_requires_filter scenarioClient ⟨"", "cbh"⟩ [] 2 ()
    (fun _ => ⟨List.not_mem_nil _, List.not_mem_nil _⟩)).1
  obtain ⟨e, he, hreq⟩ := herr ⟨List.not_mem_nil _, List.not_mem_nil _,
    fun _ => ⟨List.not_mem_nil _, List.not_mem_nil _⟩⟩
  exact ⟨c, hc, hexec, by rw [he, hreq rfl]⟩

/-- C9: the organization is optional configuration with default `cbh` and is
the scope of every command.  Parsing the environment succeeds with `TFE_ORG`
equal to `cbh` when the variable is unset and to its value when it is set, and
every workspace-listing request that `main` issues, whatever the command line,
carries that organization. -/
theorem C9_organization_scope (environ : String → Option String) :
    ∃ cfg, envParse environ = Result.ok cfg ∧
      (cfg.TFE_ORG = match environ "TFE_ORG" with
        | none => "cbh"
        | some v => v) ∧
      ∀ {σ : Type} (NewClient : TfeConfig → Result (Client σ)) (inv : Invocation)
        (fuel : Nat) (s : σ),
        ∀ r ∈ listRequests (main environ NewClient inv fuel s).trace, r.1 = cfg.TFE_ORG := by
  refine ⟨_, rfl, ?_, ?_⟩
  · cases environ "TFE_ORG" <;> rfl
  · intro σ NewClient inv fuel s r hr
    simp only [main, envParse] at hr
    cases hn : NewClient ⟨(environ "TFE_TOKEN").getD "", true⟩ with
    | err e =>
      rw [hn] at hr
      cases hr
    | ok cl =>
      rw [hn] at hr
      obtain ⟨c, hc, hex⟩ := buildCli_execute cl
        ⟨(environ "TFE_TOKEN").getD "", (environ "TFE_ORG").getD "cbh"⟩
      simp only [hc, hex] at hr
      rcases execute_dispatches cl
        ⟨(environ "TFE_TOKEN").getD "", (environ "TFE_ORG").getD "cbh"⟩ inv fuel s
        with h | ⟨p, _, _, h⟩
      · rw [h] at hr; cases hr
      · rw [h] at hr
        obtain ⟨rest, hl, hrest⟩ := runWorkspaceCmd_listRequests cl
          ⟨(environ "TFE_TOKEN").getD "", (environ "TFE_ORG").getD "cbh"⟩ p fuel s
        rw [hl, List.mem_cons] at hr
        rcases hr with hr | hr
        · rw [hr]
        · obtain ⟨j, hj⟩ := hrest r hr
          rw [hj]; rfl

/-- C9 at work: with `TFE_ORG` unset, the three listing requests of `baseline`
against the two-page scenario all carry `cbh`. -/
theorem C9_organization_scope_witness :
    ∃ cfg, envParse (fun _ => none) = Result.ok cfg ∧ cfg.TFE_ORG = "cbh" ∧
      (listRequests (main (fun _ => none) (fun _ => Result.ok scenarioClient)
        ⟨some "baseline", []⟩ 2 ()).trace).map Prod.fst = ["cbh", "cbh", "cbh"] ∧
      ∀ r ∈ listRequests (main (fun _ => none) (fun _ => Result.ok scenarioClient)
        ⟨some "baseline", []⟩ 2 ()).trace, r.1 = cfg.TFE_ORG := by
  obtain ⟨cfg, hp, ho, hall⟩ := C9_organization_scope (fun _ => none)
  exact ⟨cfg, hp, ho, by decide, hall (fun _ => Result.ok scenarioClient) ⟨some "baseline", []⟩ 2 ()⟩

end WorkspaceRunner
